import Mathlib

/-!
Shallow embedding of the pygenebe GBID codecs.

This file embeds, in Lean 4, the two integer codecs of the repository:

* `src/genebe/gbid.py` — `PositionEncoder` and `VariantIdEncoder`
  (variant GBIDs: chromosome/position/deletion/insertion packed into an
  integer, with a MurmurHash3-based escape path), and
* `src/genebe/transcriptid.py` — `GbIdentifierService` / `GbIdentifier`
  (transcript accession strings packed into a 64-bit integer).

Python strings are modelled as `List Char`, Python's unbounded signed
integers as `Int` (or `Nat` where the source value is provably
non-negative), and raised exceptions as `Except PyErr`.  Python's
arbitrary-precision bitwise operators on possibly negative values follow
two's-complement-of-infinite-width semantics (`~x = -x-1`); they are
modelled by the executable functions `pyAnd` / `pyOr` / `pyNot` /
`pyShl` / `pyShr` below, written by case split on the sign so that each
case uses only `Nat` bitwise primitives.
-/

/-- Python's `&` on arbitrary integers: on two's complement,
`~(-(a+1)) = a`, so e.g. `(-(a+1)) & (-(b+1)) = ~(a | b)`.  A
non-negative `&` with a negative argument clears bits:
`a ^^^ (a &&& b)` is `a` with the bits of `b` removed. -/
def pyAnd (x y : Int) : Int :=
  match x, y with
  | .ofNat a, .ofNat b => .ofNat (a &&& b)
  | .ofNat a, .negSucc b => .ofNat (a ^^^ (a &&& b))
  | .negSucc a, .ofNat b => .ofNat (b ^^^ (b &&& a))
  | .negSucc a, .negSucc b => .negSucc (a ||| b)

/-- Python's `|` on arbitrary integers (two's complement, see `pyAnd`). -/
def pyOr (x y : Int) : Int :=
  match x, y with
  | .ofNat a, .ofNat b => .ofNat (a ||| b)
  | .ofNat a, .negSucc b => .negSucc (b ^^^ (b &&& a))
  | .negSucc a, .ofNat b => .negSucc (a ^^^ (a &&& b))
  | .negSucc a, .negSucc b => .negSucc (a &&& b)

/-- Python's `~x = -x - 1`. -/
def pyNot (x : Int) : Int := -x - 1

/-- Python's `x << n`: multiplication by `2^n` (both signs). -/
def pyShl (x : Int) (n : Nat) : Int := x * ((2 ^ n : Nat) : Int)

/-- Python's `x >> n`: arithmetic (floor) shift;
`-(a+1) >> n = -(a >>> n + 1)`. -/
def pyShr (x : Int) (n : Nat) : Int :=
  match x with
  | .ofNat a => .ofNat (a >>> n)
  | .negSucc a => .negSucc (a >>> n)

/-- Exceptions raised (or propagated) by the embedded code.  Messages are
not modelled, only the kind of the raised exception:
`invalidPosition` is `InvalidPositionException` from `gbid.py`,
`invalidIdentifier` is `InvalidGbIdentifierException` from
`transcriptid.py`, and `valueError` / `typeError` / `indexError` model the
corresponding Python built-in exceptions. -/
inductive PyErr where
  | invalidPosition
  | invalidIdentifier
  | valueError
  | typeError
  | indexError
  deriving DecidableEq, Repr

instance {ε α : Type} [DecidableEq ε] [DecidableEq α] :
    DecidableEq (Except ε α) := fun x y =>
  match x, y with
  | .ok a, .ok b =>
    if h : a = b then .isTrue (by rw [h]) else .isFalse (by simp [h])
  | .error a, .error b =>
    if h : a = b then .isTrue (by rw [h]) else .isFalse (by simp [h])
  | .ok _, .error _ => .isFalse (fun h => Except.noConfusion h)
  | .error _, .ok _ => .isFalse (fun h => Except.noConfusion h)

/-- ASCII whitespace, as stripped by Python's `int(str)` conversion
(the strings fed to `int` in this code base are ASCII). -/
def isPyWs (c : Char) : Bool :=
  c = ' ' ∨ c = '\t' ∨ c = '\n' ∨ c = '\r' ∨ c = '\x0b' ∨ c = '\x0c'

/-- Value of an ASCII decimal digit character, `none` for anything else. -/
def digitVal (c : Char) : Option Nat :=
  if '0' ≤ c ∧ c ≤ '9' then some (c.toNat - 48) else none

/-- Core digit-sequence parser for Python's `int(str)`: a non-empty run of
decimal digits in which a single underscore may appear between two digits
(`1_2` parses, `_1`, `1_`, `1__2` do not).  `acc` is the value of the
digits consumed so far. -/
def parseDigitsCore : List Char → Nat → Option Nat
  | [], acc => some acc
  | c :: rest, acc =>
    if c = '_' then
      match rest with
      | [] => none
      | c2 :: rest2 =>
        match digitVal c2 with
        | some d => parseDigitsCore rest2 (acc * 10 + d)
        | none => none
    else
      match digitVal c with
      | some d => parseDigitsCore rest (acc * 10 + d)
      | none => none

/-- Parse a non-empty unsigned digit run (underscores allowed between
digits), the body of Python's `int(str)` after sign and whitespace. -/
def parseDigitsU : List Char → Option Nat
  | [] => none
  | c :: rest =>
    match digitVal c with
    | some d => parseDigitsCore rest d
    | none => none

/-- Strip leading and trailing whitespace, as Python's `int(str)` does. -/
def pyStrip (s : List Char) : List Char :=
  ((s.dropWhile isPyWs).reverse.dropWhile isPyWs).reverse

/-- Python's `int(str)` conversion for base 10: optional surrounding
whitespace, optional single sign, then digits (with underscores between
digits).  Raises `ValueError` on anything else. -/
def pyInt (s : List Char) : Except PyErr Int :=
  match pyStrip s with
  | '-' :: rest =>
    match parseDigitsU rest with
    | some n => .ok (-(n : Int))
    | none => .error .valueError
  | '+' :: rest =>
    match parseDigitsU rest with
    | some n => .ok (n : Int)
    | none => .error .valueError
  | rest =>
    match parseDigitsU rest with
    | some n => .ok (n : Int)
    | none => .error .valueError

/-- The ASCII character of a decimal digit. -/
def digitChar (d : Nat) : Char := Char.ofNat (48 + d)

/-- Fueled digit-accumulation loop for `natToDigits`; the fuel only
bounds the recursion depth (any fuel above the digit count gives the same
result) and keeps the definition structurally recursive, so that closed
instances reduce inside the kernel. -/
def natToDigitsAux : Nat → Nat → List Char → List Char
  | 0, _, acc => acc
  | fuel + 1, n, acc =>
    if n < 10 then digitChar n :: acc
    else natToDigitsAux fuel (n / 10) (digitChar (n % 10) :: acc)

/-- Decimal digit string of a natural number, most significant digit
first; models Python's `str(n)` for `n >= 0`. -/
def natToDigits (n : Nat) : List Char := natToDigitsAux (n + 1) n []

/-- Python's `str(i)` for an integer. -/
def intToDigits (i : Int) : List Char :=
  if i < 0 then '-' :: natToDigits (-i).toNat else natToDigits i.toNat

/-- Python's `str.zfill(width)` for the sign-free digit strings produced
in this code base: left-pad with `'0'` to `width` characters. -/
def zfill (s : List Char) (width : Nat) : List Char :=
  List.replicate (width - s.length) '0' ++ s

/-- Python's `str.upper()` for the ASCII strings handled here. -/
def pyUpper (s : List Char) : List Char :=
  s.map fun c => if 'a' ≤ c ∧ c ≤ 'z' then Char.ofNat (c.toNat - 32) else c

/-!
## PositionEncoder (`src/genebe/gbid.py`)
-/

/-- `PositionEncoder.chromosomes`: the fixed, ordered chromosome catalogue. -/
def chromosomes : List (List Char) :=
  ["1", "2", "3", "4", "5", "6", "7", "8", "9", "10", "11", "12", "13",
   "14", "15", "16", "17", "18", "19", "20", "21", "22", "X", "Y",
   "M"].map String.data

/-- `PositionEncoder.chromosome_sizes`: reference length of each
chromosome. -/
def chromosome_sizes : List Char → Option Nat
  | ['1'] => some 248956422
  | ['2'] => some 242193529
  | ['3'] => some 198295559
  | ['4'] => some 190214555
  | ['5'] => some 181538259
  | ['6'] => some 170805979
  | ['7'] => some 159345973
  | ['8'] => some 145138636
  | ['9'] => some 138394717
  | ['1', '0'] => some 133797422
  | ['1', '1'] => some 135086622
  | ['1', '2'] => some 133275309
  | ['1', '3'] => some 114364328
  | ['1', '4'] => some 107043718
  | ['1', '5'] => some 101991189
  | ['1', '6'] => some 90338345
  | ['1', '7'] => some 83257441
  | ['1', '8'] => some 80373285
  | ['1', '9'] => some 58617616
  | ['2', '0'] => some 64444167
  | ['2', '1'] => some 46709983
  | ['2', '2'] => some 50818468
  | ['X'] => some 156040895
  | ['Y'] => some 57227415
  | ['M'] => some 16569
  | _ => none

/-- `self.sizes`: lengths in catalogue order
(`chromosome_sizes.get(name, 0)` for each listed name). -/
def sizes : List Nat :=
  chromosomes.map fun c => (chromosome_sizes c).getD 0

/-- `self.offsets`: `offsets[i] = sum(sizes[:i])`, the exclusive prefix
sums of the lengths. -/
def offsets : List Nat :=
  (List.range chromosomes.length).map fun i => ((sizes.take i).sum)

/-- `PositionEncoder.CHR_NOT_SUPPORTED`. -/
def CHR_NOT_SUPPORTED : Int := -1

/-- `PositionEncoder.ERROR_WRONG_CHR_POSITION`. -/
def ERROR_WRONG_CHR_POSITION : Int := -2

/-- `PositionEncoder.encode_1_based_without_throw` (also reached as
`PositionEncoder.encode`): look the chromosome up in the catalogue
(`list.index`, first occurrence), report `CHR_NOT_SUPPORTED` when absent,
report `ERROR_WRONG_CHR_POSITION` when `position > size or position < 0`,
otherwise return `position - 1 + offset`.  (`PositionEncoder._chr` is the
identity in the source.)  Sentinels are returned, not raised. -/
def posEncode (chromosome : List Char) (position : Int) : Int :=
  match chromosomes.indexOf? chromosome with
  | none => CHR_NOT_SUPPORTED
  | some chr_index =>
    let size := sizes.getD chr_index 0
    if position > (size : Int) ∨ position < 0 then ERROR_WRONG_CHR_POSITION
    else position - 1 + (offsets.getD chr_index 0 : Int)

/-!
## MurmurHash3, x64 variant, 128-bit digest

`VariantIdEncoder.hash_function` delegates to `mmh3.hash128` (with
pure-python `pymmh3` as fallback): the MurmurHash3 x64 128-bit digest of a
byte string, returned as an unsigned 128-bit integer, of which the source
keeps the low 64 bits.  The algorithm is embedded here over `Nat` with
explicit reduction `% 2^64`.
-/

/-- `2^64`, the word size of the x64 MurmurHash3 variant. -/
def M64 : Nat := 2 ^ 64

/-- 64-bit left rotation. -/
def rotl64 (x r : Nat) : Nat :=
  ((x <<< r) % M64) ||| (x >>> (64 - r))

/-- MurmurHash3 finalization mix. -/
def fmix64 (k : Nat) : Nat :=
  let k := k ^^^ (k >>> 33)
  let k := (k * 0xff51afd7ed558ccd) % M64
  let k := k ^^^ (k >>> 33)
  let k := (k * 0xc4ceb9fe1a85ec53) % M64
  k ^^^ (k >>> 33)

/-- MurmurHash3 x64 body constant c1. -/
def mmC1 : Nat := 0x87c37b91114253d5

/-- MurmurHash3 x64 body constant c2. -/
def mmC2 : Nat := 0x4cf5ad432745937f

/-- Little-endian value of a byte list. -/
def leVal (bs : List Nat) : Nat :=
  bs.foldr (fun b acc => b + 256 * acc) 0

/-- Mix step applied to each k1 word. -/
def mixK1 (k1 : Nat) : Nat :=
  let k1 := (k1 * mmC1) % M64
  let k1 := rotl64 k1 31
  (k1 * mmC2) % M64

/-- Mix step applied to each k2 word. -/
def mixK2 (k2 : Nat) : Nat :=
  let k2 := (k2 * mmC2) % M64
  let k2 := rotl64 k2 33
  (k2 * mmC1) % M64

/-- Process the 16-byte blocks of the input.  Structurally recursive on a
fuel argument (any fuel of at least the block count gives the same
result), so that closed instances reduce inside the kernel. -/
def mmBlocks : Nat → List Nat → Nat → Nat → Nat × Nat
  | 0, _, h1, h2 => (h1, h2)
  | fuel + 1, bs, h1, h2 =>
    if bs.length ≥ 16 then
      let k1 := leVal (bs.take 8)
      let k2 := leVal ((bs.drop 8).take 8)
      let h1 := h1 ^^^ mixK1 k1
      let h1 := rotl64 h1 27
      let h1 := (h1 + h2) % M64
      let h1 := (h1 * 5 + 0x52dce729) % M64
      let h2 := h2 ^^^ mixK2 k2
      let h2 := rotl64 h2 31
      let h2 := (h2 + h1) % M64
      let h2 := (h2 * 5 + 0x38495ab5) % M64
      mmBlocks fuel (bs.drop 16) h1 h2
    else (h1, h2)

/-- MurmurHash3 x64 128-bit digest of a byte string, as the unsigned
128-bit integer `h1 + h2 * 2^64` that `mmh3.hash128` returns. -/
def murmur128 (bytes : List Nat) (seed : Nat) : Nat :=
  let len := bytes.length
  let (h1, h2) := mmBlocks (len + 1) bytes seed seed
  let tl := bytes.drop (len - len % 16)
  let tlen := len % 16
  let h2 := if tlen ≥ 9 then h2 ^^^ mixK2 (leVal ((tl.drop 8).take 7)) else h2
  let h1 := if tlen ≥ 1 then h1 ^^^ mixK1 (leVal (tl.take 8)) else h1
  let h1 := h1 ^^^ len
  let h2 := h2 ^^^ len
  let h1 := (h1 + h2) % M64
  let h2 := (h2 + h1) % M64
  let h1 := fmix64 h1
  let h2 := fmix64 h2
  let h1 := (h1 + h2) % M64
  let h2 := (h2 + h1) % M64
  (h2 <<< 64) + h1

/-- UTF-8 bytes of a string (`str.encode("utf-8")`). -/
def utf8Bytes (s : List Char) : List Nat :=
  s.flatMap fun c =>
    let n := c.toNat
    if n < 0x80 then [n]
    else if n < 0x800 then [0xC0 ||| (n >>> 6), 0x80 ||| (n &&& 0x3F)]
    else if n < 0x10000 then
      [0xE0 ||| (n >>> 12), 0x80 ||| ((n >>> 6) &&& 0x3F), 0x80 ||| (n &&& 0x3F)]
    else
      [0xF0 ||| (n >>> 18), 0x80 ||| ((n >>> 12) &&& 0x3F),
       0x80 ||| ((n >>> 6) &&& 0x3F), 0x80 ||| (n &&& 0x3F)]

/-!
## VariantIdEncoder (`src/genebe/gbid.py`)
-/

/-- `VariantIdEncoder.MAX_DEL_LENGTH = (2**7) - 1`. -/
def MAX_DEL_LENGTH : Int := 2 ^ 7 - 1

/-- `VariantIdEncoder.MAX_INS_LENGTH`. -/
def MAX_INS_LENGTH : Nat := 9

/-- `VariantIdEncoder.MASK_HASH`. -/
def MASK_HASH : Nat :=
  0b1000000000000000000000000000000000000000000000000000000000000000

/-- `VariantIdEncoder.MASK_NULL`. -/
def MASK_NULL : Nat :=
  0b0100000000000000000000000000000000000000000000000000000000000000

/-- `VariantIdEncoder.MASK_POS`. -/
def MASK_POS : Nat :=
  0b0011111111111111111111111111111111000000000000000000000000000000

/-- `VariantIdEncoder.MASK_C_HASH`. -/
def MASK_C_HASH : Nat :=
  0b0000000000000000000000000000000000100000000000000000000000000000

/-- `VariantIdEncoder.MASK_INS_LEN`. -/
def MASK_INS_LEN : Nat :=
  0b0000000000000000000000000000000000011110000000000000000000000000

/-- `VariantIdEncoder.MASK_DEL`. -/
def MASK_DEL : Nat :=
  0b0000000000000000000000000000000000000001111111000000000000000000

/-- `VariantIdEncoder.MASK_INS`. -/
def MASK_INS : Nat :=
  0b0000000000000000000000000000000000000000000000111111111111111111

/-- `VariantIdEncoder.MASK_CHANGE_HASH_VALUE`. -/
def MASK_CHANGE_HASH_VALUE : Nat :=
  0b0000000000000000000000000000000000011111111111111111111111111111

/-- Fueled halving loop for `bitLength`; `bitLength n` passes fuel `n`,
which is enough for every `n` since a positive number has at most `n`
binary digits. -/
def bitLengthAux : Nat → Nat → Nat
  | 0, _ => 0
  | fuel + 1, n => if n = 0 then 0 else bitLengthAux fuel (n / 2) + 1

/-- Python's `int.bit_length()` for a non-negative integer. -/
def bitLength (n : Nat) : Nat := bitLengthAux n n

/-- `(mask & -mask).bit_length() - 1`: the index of the lowest set bit of
a mask, used as the shift amount by `set_value`/`_read_value`
(`mask & -mask` isolates the lowest set bit). -/
def lowestSetShift (mask : Nat) : Nat :=
  bitLength (pyAnd (mask : Int) (-(mask : Int))).toNat - 1

/-- `VariantIdEncoder.set_value` (and, identically,
`GbIdentifierService._set_value` / `_set_value_long`):
`(input & ~mask) | ((value << shift_count) & mask)` with Python's
arbitrary-precision signed bitwise semantics. -/
def set_value (input : Int) (mask : Nat) (value : Int) : Int :=
  pyOr (pyAnd input (pyNot (mask : Int)))
    (pyAnd (pyShl value (lowestSetShift mask)) (mask : Int))

/-- `GbIdentifierService._read_value` / `_read_value_long`:
`(input & mask) >> shift_count`. -/
def read_value (input : Int) (mask : Nat) : Int :=
  pyShr (pyAnd input (mask : Int)) (lowestSetShift mask)

/-- `VariantIdEncoder.SHIFT_POS`. -/
def SHIFT_POS : Nat := 30

/-- `VariantIdEncoder.SHIFT_INS_LEN`. -/
def SHIFT_INS_LEN : Nat := 25

/-- `VariantIdEncoder.SHIFT_DEL`. -/
def SHIFT_DEL : Nat := 18

/-- `VariantIdEncoder.SHIFT_C_HASH`. -/
def SHIFT_C_HASH : Nat := 29

/-- `VariantIdEncoder.BASE_ENCODING`. -/
def BASE_ENCODING (c : Char) : Option Nat :=
  if c = 'A' then some 0
  else if c = 'C' then some 1
  else if c = 'G' then some 2
  else if c = 'T' then some 3
  else none

/-- `VariantIdEncoder.VALID_BASES = frozenset("ACGNT")`. -/
def VALID_BASES : List Char := ['A', 'C', 'G', 'N', 'T']

/-- Loop body of `VariantIdEncoder.encode_bases_fast`: `encoded |= value
<< (i * 2)` for each base, raising `InvalidPositionException` on a
character outside `BASE_ENCODING`. -/
def encodeBasesGo : List Char → Nat → Nat → Except PyErr Nat
  | [], _, encoded => .ok encoded
  | c :: rest, i, encoded =>
    match BASE_ENCODING c with
    | none => .error .invalidPosition
    | some value => encodeBasesGo rest (i + 1) (encoded ||| (value <<< (i * 2)))

/-- `VariantIdEncoder.encode_bases_fast`. -/
def encode_bases_fast (alt : List Char) : Except PyErr Nat :=
  encodeBasesGo alt 0 0

/-- `VariantIdEncoder.hash_function`: low 64 bits of the 128-bit
MurmurHash3 digest, default seed 104729. -/
def hash_function (bytes : List Nat) : Nat :=
  murmur128 bytes 104729 &&& 0xFFFFFFFFFFFFFFFF

/-- `VariantIdEncoder.change_hash`: hash of the UTF-8 bytes of
`f"{del_length}:{alt}"`, masked to the change-hash field. -/
def change_hash (del_length : Int) (alt : List Char) : Nat :=
  hash_function (utf8Bytes (intToDigits del_length ++ ':' :: alt))
    &&& MASK_CHANGE_HASH_VALUE

/-- Chromosome normalization at the top of `encodeSpdi`: strip a leading
`"chr"`/`"CHR"`/`"Chr"`, then uppercase. -/
def normChrom (chromosome : List Char) : List Char :=
  if ['c', 'h', 'r'] <+: chromosome ∨ ['C', 'H', 'R'] <+: chromosome ∨
      ['C', 'h', 'r'] <+: chromosome
  then pyUpper (chromosome.drop 3)
  else pyUpper chromosome

/-- `VariantIdEncoder.encodeSpdi`: SPDI-style encoding of
(chromosome, 0-based position, deletion length, insertion string). -/
def encodeSpdi (chromosome : List Char) (position del_length : Int)
    (ins : List Char) : Except PyErr Int :=
  let chromosomeNormalized := normChrom chromosome
  let positionId := posEncode chromosomeNormalized position
  if positionId = -1 then .error .invalidPosition
  else if ¬ ins.all VALID_BASES.contains then .error .invalidPosition
  else
    let ins_len : Nat := ins.length
    let useChangeHash := (ins_len : Nat) > MAX_INS_LENGTH ∨ del_length > MAX_DEL_LENGTH
    let hasN := 'N' ∈ ins
    if useChangeHash ∨ hasN then
      let encoded := set_value 0 MASK_C_HASH 1
      let encoded := set_value encoded MASK_POS positionId
      let changeHash := change_hash del_length ins
      let encoded := set_value encoded MASK_CHANGE_HASH_VALUE (changeHash : Int)
      .ok encoded
    else
      match encode_bases_fast ins with
      | .error e => .error e
      | .ok encodedAlt =>
        .ok (pyOr
          (pyOr
            (pyOr (pyShl positionId SHIFT_POS) (pyShl (ins_len : Int) SHIFT_INS_LEN))
            (pyShl del_length SHIFT_DEL))
          (encodedAlt : Int))

/-- The `ref` argument of `encode1based` is dual-mode in the source: a
base string or an already-computed integer deletion length. -/
inductive PyRef where
  | str : List Char → PyRef
  | int : Int → PyRef
  deriving DecidableEq, Repr

/-- The prefix-stripping loop of `encode1based` for a string `ref`:
while `ref` and `altNorm` are non-empty with equal first characters, drop
both first characters and increment the position. -/
def stripCommon : Int → List Char → List Char → Int × List Char × List Char
  | position, c :: s, a :: alt =>
    if c = a then stripCommon (position + 1) s alt else (position, c :: s, a :: alt)
  | position, s, alt => (position, s, alt)

/-- `VariantIdEncoder.encode1based` (reached from
`encode_vcf_variant_gbid`): make the position 0-based, uppercase `alt`,
strip the common leading characters, and delegate to `encodeSpdi`.  When
`ref` is a truthy (non-zero) integer and `altNorm` is truthy (non-empty),
the loop condition evaluates `ref[0]` on an integer, which raises
`TypeError`; otherwise the loop does not run and the integer is used
directly as the deletion length. -/
def encode1based (chromosome : List Char) (position : Int) (ref : PyRef)
    (alt : List Char) : Except PyErr Int :=
  let position := position - 1
  let altNorm := pyUpper alt
  match ref with
  | .int n =>
    if n ≠ 0 ∧ altNorm ≠ [] then .error .typeError
    else encodeSpdi chromosome position n altNorm
  | .str s =>
    let r := stripCommon position s altNorm
    encodeSpdi chromosome r.1 (r.2.1.length : Int) r.2.2

/-!
## Transcript identifier codec (`src/genebe/transcriptid.py`)
-/

/-- One member of the `GbIdentifierType` enumeration:
`(prefix, padding_size, computed, refseq)`. -/
structure GbType where
  prefixStr : List Char
  padding_size : Nat
  computed : Bool
  refseq : Bool
  deriving DecidableEq, Repr

/-- The 12 `GbIdentifierType` members, in declaration order (the order is
significant: prefix matching takes the first hit). -/
def gbTypes : List GbType :=
  [⟨"ENST".data, 11, false, false⟩,
   ⟨"ENSP".data, 11, false, false⟩,
   ⟨"ENSG".data, 11, false, false⟩,
   ⟨"NM_".data, 9, false, true⟩,
   ⟨"NR_".data, 9, false, true⟩,
   ⟨"NP_".data, 9, false, true⟩,
   ⟨"XM_".data, 9, true, true⟩,
   ⟨"XP_".data, 9, true, true⟩,
   ⟨"YP_".data, 9, true, true⟩,
   ⟨"XR_".data, 9, true, true⟩,
   ⟨"unassigned_transcript_".data, 0, false, true⟩,
   ⟨"ENSR".data, 11, false, false⟩]

/-- `GbIdentifierService.MASK_OMIT`. -/
def MASK_OMIT : Nat :=
  0b1000000000000000000000000000000000000000000000000000000000000000

/-- `GbIdentifierService.MASK_TYPE`. -/
def MASK_TYPE : Nat :=
  0b0111111110000000000000000000000000000000000000000000000000000000

/-- `GbIdentifierService.MASK_ID`. -/
def MASK_ID : Nat :=
  0b0000000001111111111111111111111111111111111111000000000000000000

/-- `GbIdentifierService.MASK_VERSION`. -/
def MASK_VERSION : Nat :=
  0b0000000000000000000000000000000000000000000000111111111111111111

/-- The prefix-matching loop of `GbIdentifierService.encode` (combined
with the later `list(GbIdentifierType).index(real_type)`, which recovers
exactly the position of that first match, the 12 members being pairwise
distinct): the first type whose prefix starts the string, together with
its index. -/
def findGbType : List GbType → List Char → Nat → Option (Nat × GbType)
  | [], _, _ => none
  | t :: rest, s, i =>
    if t.prefixStr.isPrefixOf s then some (i, t) else findGbType rest s (i + 1)

/-- `GbIdentifierService._encode`: pack TYPE, ID, VERSION with
`_set_value` / `_set_value_long` (identical helpers in the source). -/
def gbEncodeFields (transcript_id version type_id : Int) : Int :=
  let encoded := set_value 0 MASK_TYPE type_id
  let encoded := set_value encoded MASK_ID transcript_id
  set_value encoded MASK_VERSION version

/-- `GbIdentifierService.encode`: match the prefix (first hit in
declaration order, `InvalidGbIdentifierException` when none), split the
rest at the first `'.'` when present (`int` conversions raise
`ValueError` on malformed input), and pack the fields. -/
def gbEncode (transcript : List Char) : Except PyErr Int :=
  match findGbType gbTypes transcript 0 with
  | none => .error .invalidIdentifier
  | some (type_id, real_type) =>
    if '.' ∈ transcript then
      let start_idx := real_type.prefixStr.length
      let dot_idx := transcript.findIdx (fun c => c = '.')
      match pyInt ((transcript.drop start_idx).take (dot_idx - start_idx)) with
      | .error e => .error e
      | .ok transcript_id =>
        match pyInt (transcript.drop (dot_idx + 1)) with
        | .error e => .error e
        | .ok version => .ok (gbEncodeFields transcript_id version (type_id : Int))
    else
      match pyInt (transcript.drop real_type.prefixStr.length) with
      | .error e => .error e
      | .ok transcript_id => .ok (gbEncodeFields transcript_id 0 (type_id : Int))

/-- Python list indexing `l[i]` (negative indices count from the end;
out-of-range raises `IndexError`). -/
def pyListGet {α : Type} (l : List α) (i : Int) : Except PyErr α :=
  let j : Int := if i < 0 then i + l.length else i
  if 0 ≤ j then
    match l.get? j.toNat with
    | some x => .ok x
    | none => .error .indexError
  else .error .indexError

/-- `GbIdentifierService._type_id_to_string`:
`list(GbIdentifierType)[id_val]` — an unguarded list indexing. -/
def type_id_to_gbType (id_val : Int) : Except PyErr GbType :=
  pyListGet gbTypes id_val

/-- `GbIdentifierService.version`. -/
def gbVersion (id_val : Int) : Int := read_value id_val MASK_VERSION

/-- `GbIdentifierService.identifier` (via `_read_value_long`). -/
def gbIdentifierField (id_val : Int) : Int := read_value id_val MASK_ID

/-- `GbIdentifierService.decode`: extract TYPE (raising `IndexError` for
a type field outside the enumeration), VERSION and ID into a
`GbIdentifierData`-like triple `(type, version, transcript_id)`. -/
def gbDecode (id_val : Int) : Except PyErr (GbType × Int × Int) :=
  match type_id_to_gbType (read_value id_val MASK_TYPE) with
  | .error e => .error e
  | .ok t => .ok (t, gbVersion id_val, gbIdentifierField id_val)

/-- `GbIdentifier.__str__`: render the canonical accession string.  The
padding width for RefSeq types is 9 when the identifier is at least
1 000 000 and 6 otherwise; the source's preceding test
`self.get_type == GbIdentifierType.unassigned_transcript` compares the
bound method object itself (the call parentheses are missing) with an
enum member, so it is always False and the `padding_size = 0` branch is
dead — this embedding reproduces that behavior.  Raises `IndexError`
(propagated out of `get_type`) when the TYPE field is outside the
enumeration. -/
def gbIdentifierStr (id_val : Int) : Except PyErr (List Char) :=
  match type_id_to_gbType (read_value id_val MASK_TYPE) with
  | .error e => .error e
  | .ok type_val =>
    let ident := gbIdentifierField id_val
    let padding_size : Nat :=
      if type_val.refseq then
        if False then 0
        else if ident ≥ 1000000 then 9 else 6
      else type_val.padding_size
    let result := type_val.prefixStr ++ zfill (intToDigits ident) padding_size
    let version := gbVersion id_val
    .ok (if version > 0 then result ++ '.' :: intToDigits version else result)

/-- `GbIdentifierService.to_string` / `decode_transcript_id` on an
integer input: `GbIdentifier.parse` wraps the integer without raising,
then `str(...)` invokes `GbIdentifier.__str__` (whose exceptions
propagate — `parse`'s `except` clause has already returned). -/
def gbToString (id_val : Int) : Except PyErr (List Char) :=
  gbIdentifierStr id_val

/-!
## Specification-side definitions

The following definitions restate, independently of the embedded code,
the layouts and normalizations that the specification describes; the
theorems below compare the embedded functions against them.
-/

/-- Specification-side per-base 2-bit code: `A=0, C=1, G=2, T=3`. -/
def baseCode (c : Char) : Nat :=
  if c = 'C' then 1 else if c = 'G' then 2 else if c = 'T' then 3 else 0

/-- Specification-side value of an insertion packed 2 bits per base,
left-to-right (first base in the lowest bits). -/
def basesVal : List Char → Nat
  | [] => 0
  | c :: r => baseCode c + 4 * basesVal r

/-- Specification-side length of the shared leading run of two strings:
the number of initial positions at which both are non-empty and agree. -/
def commonPrefixLen : List Char → List Char → Nat
  | r :: rs, a :: as' => if r = a then commonPrefixLen rs as' + 1 else 0
  | _, _ => 0

/-- The padding width that decoding applies to a transcript identifier:
RefSeq types use 9 digits from 1 000 000 up and 6 below (including
`unassigned_transcript`, whose `padding_size = 0` is unreachable in the
source, see `gbIdentifierStr`); other types use their declared width. -/
def canonicalPad (t : GbType) (id : Nat) : Nat :=
  if t.refseq then (if id ≥ 1000000 then 9 else 6) else t.padding_size

/-- The canonical string form of a transcript identifier triple: prefix,
zero-padded numeric id, and a `"." ++ version` suffix exactly when the
version is positive. -/
def canonicalGb (t : GbType) (id v : Nat) : List Char :=
  t.prefixStr ++ zfill (natToDigits id) (canonicalPad t id) ++
    (if v > 0 then '.' :: natToDigits v else [])

/-!
## Infrastructure lemmas

Reduction rules for the Python bitwise model, and `Nat`-level facts about
shifted window masks `(2^w - 1) <<< s` (every mask in both layouts has
this shape).
-/

@[simp] theorem pyAnd_natCast (a b : Nat) :
    pyAnd (a : Int) (b : Int) = ((a &&& b : Nat) : Int) := rfl

@[simp] theorem pyAnd_natCast_negSucc (a b : Nat) :
    pyAnd (a : Int) (Int.negSucc b) = ((a ^^^ (a &&& b) : Nat) : Int) := rfl

@[simp] theorem pyAnd_negSucc_natCast (a b : Nat) :
    pyAnd (Int.negSucc a) (b : Int) = ((b ^^^ (b &&& a) : Nat) : Int) := rfl

@[simp] theorem pyAnd_negSucc_negSucc (a b : Nat) :
    pyAnd (Int.negSucc a) (Int.negSucc b) = Int.negSucc (a ||| b) := rfl

@[simp] theorem pyOr_natCast (a b : Nat) :
    pyOr (a : Int) (b : Int) = ((a ||| b : Nat) : Int) := rfl

@[simp] theorem pyOr_natCast_negSucc (a b : Nat) :
    pyOr (a : Int) (Int.negSucc b) = Int.negSucc (b ^^^ (b &&& a)) := rfl

@[simp] theorem pyOr_negSucc_natCast (a b : Nat) :
    pyOr (Int.negSucc a) (b : Int) = Int.negSucc (a ^^^ (a &&& b)) := rfl

@[simp] theorem pyOr_negSucc_negSucc (a b : Nat) :
    pyOr (Int.negSucc a) (Int.negSucc b) = Int.negSucc (a &&& b) := rfl

@[simp] theorem pyShr_natCast (a : Nat) (n : Nat) :
    pyShr (a : Int) n = ((a >>> n : Nat) : Int) := rfl

@[simp] theorem pyShr_negSucc (a : Nat) (n : Nat) :
    pyShr (Int.negSucc a) n = Int.negSucc (a >>> n) := rfl

@[simp] theorem pyNot_natCast (m : Nat) :
    pyNot (m : Int) = Int.negSucc m := by
  rw [pyNot, Int.negSucc_eq]; ring

@[simp] theorem pyShl_natCast (a : Nat) (n : Nat) :
    pyShl (a : Int) n = ((a <<< n : Nat) : Int) := by
  rw [pyShl, Nat.shiftLeft_eq]; push_cast; ring

theorem pyShl_negSucc (a n : Nat) :
    pyShl (Int.negSucc a) n = Int.negSucc ((a + 1) * 2 ^ n - 1) := by
  rw [pyShl, Int.negSucc_eq, Int.negSucc_eq]
  have h1 : (1 : Nat) ≤ (a + 1) * 2 ^ n :=
    Nat.one_le_iff_ne_zero.mpr (by positivity)
  push_cast [h1]
  ring

theorem testBit_window (w s i : Nat) :
    (((2 ^ w - 1) <<< s).testBit i) = (decide (s ≤ i) && decide (i < s + w)) := by
  rw [Nat.testBit_shiftLeft, Nat.testBit_two_pow_sub_one, Bool.eq_iff_iff]
  simp only [Bool.and_eq_true, decide_eq_true_eq, ge_iff_le]
  omega

theorem shiftRight_lor (x y s : Nat) :
    (x ||| y) >>> s = (x >>> s) ||| (y >>> s) := by
  apply Nat.eq_of_testBit_eq
  intro i
  simp [Nat.testBit_lor, Nat.testBit_shiftRight]

theorem mod_two_pow_lor (x y w : Nat) :
    (x ||| y) % 2 ^ w = (x % 2 ^ w) ||| (y % 2 ^ w) := by
  apply Nat.eq_of_testBit_eq
  intro i
  simp only [Nat.testBit_mod_two_pow, Nat.testBit_lor]
  cases decide (i < w) <;> simp

theorem window_extract (x w s : Nat) :
    (x &&& ((2 ^ w - 1) <<< s)) >>> s = (x >>> s) % 2 ^ w := by
  apply Nat.eq_of_testBit_eq
  intro i
  simp only [Nat.testBit_shiftRight, Nat.testBit_land, Nat.testBit_mod_two_pow,
    testBit_window]
  generalize x.testBit (s + i) = b
  rw [Bool.eq_iff_iff]
  simp only [Bool.and_eq_true, decide_eq_true_eq]
  cases b <;> simp

theorem shiftLeft_and_window (a w s : Nat) :
    (a <<< s) &&& ((2 ^ w - 1) <<< s) = (a % 2 ^ w) <<< s := by
  apply Nat.eq_of_testBit_eq
  intro i
  simp only [Nat.testBit_land, Nat.testBit_shiftLeft, testBit_window,
    Nat.testBit_mod_two_pow, ge_iff_le]
  generalize a.testBit (i - s) = b
  rw [Bool.eq_iff_iff]
  simp only [Bool.and_eq_true, decide_eq_true_eq]
  cases b <;> simp

theorem and_window_hi (a w s s2 : Nat) (h : s2 + w ≤ s) :
    (a <<< s) &&& ((2 ^ w - 1) <<< s2) = 0 := by
  apply Nat.eq_of_testBit_eq
  intro i
  simp only [Nat.testBit_land, Nat.testBit_shiftLeft, testBit_window,
    Nat.zero_testBit, ge_iff_le]
  generalize a.testBit (i - s) = b
  rw [Bool.eq_iff_iff]
  simp only [Bool.and_eq_true, decide_eq_true_eq]
  cases b <;> simp <;> omega

theorem and_window_lo (a w s2 : Nat) (h : a < 2 ^ s2) :
    a &&& ((2 ^ w - 1) <<< s2) = 0 := by
  apply Nat.eq_of_testBit_eq
  intro i
  by_cases h1 : s2 ≤ i
  · have hf : a.testBit i = false :=
      Nat.testBit_lt_two_pow
        (lt_of_lt_of_le h (Nat.pow_le_pow_right (by norm_num) h1))
    simp [Nat.testBit_land, hf]
  · simp [Nat.testBit_land, testBit_window, h1]

theorem xor_of_disjoint (x y : Nat) (h : x &&& y = 0) :
    x ^^^ y = x ||| y := by
  apply Nat.eq_of_testBit_eq
  intro i
  have hxy : x.testBit i = true → y.testBit i = false := by
    have := congrArg (fun t => Nat.testBit t i) h
    simpa [Nat.testBit_land] using this
  simp only [Nat.testBit_xor, Nat.testBit_lor]
  cases hx : x.testBit i <;> simp_all

theorem lor_and_right (x y m : Nat) :
    (x ||| y) &&& m = (x &&& m) ||| (y &&& m) := by
  rw [Nat.land_comm, Nat.and_or_distrib_left, Nat.land_comm m x, Nat.land_comm m y]

@[simp] theorem pyAnd_zero_negSucc (b : Nat) : pyAnd 0 (Int.negSucc b) = 0 := by
  show pyAnd ((0 : Nat) : Int) (Int.negSucc b) = ((0 : Nat) : Int)
  rw [pyAnd_natCast_negSucc, Nat.zero_and, Nat.xor_zero]

@[simp] theorem pyOr_zero (y : Int) : pyOr 0 y = y := by
  cases y with
  | ofNat b =>
    show pyOr ((0 : Nat) : Int) ((b : Nat) : Int) = _
    rw [pyOr_natCast, Nat.zero_or, Int.ofNat_eq_natCast]
  | negSucc b =>
    show pyOr ((0 : Nat) : Int) (Int.negSucc b) = _
    rw [pyOr_natCast_negSucc, Nat.and_zero, Nat.xor_zero]

theorem shiftc_MASK_TYPE : lowestSetShift MASK_TYPE = 55 := by decide
theorem shiftc_MASK_ID : lowestSetShift MASK_ID = 18 := by decide
theorem shiftc_MASK_VERSION : lowestSetShift MASK_VERSION = 0 := by decide
theorem shiftc_MASK_POS : lowestSetShift MASK_POS = 30 := by decide
theorem shiftc_MASK_C_HASH : lowestSetShift MASK_C_HASH = 29 := by decide
theorem shiftc_MASK_INS_LEN : lowestSetShift MASK_INS_LEN = 25 := by decide
theorem shiftc_MASK_DEL : lowestSetShift MASK_DEL = 18 := by decide
theorem shiftc_MASK_INS : lowestSetShift MASK_INS = 0 := by decide
theorem shiftc_MASK_CH : lowestSetShift MASK_CHANGE_HASH_VALUE = 0 := by decide

theorem MASK_TYPE_window : MASK_TYPE = (2 ^ 8 - 1) <<< 55 := by decide
theorem MASK_ID_window : MASK_ID = (2 ^ 37 - 1) <<< 18 := by decide
theorem MASK_VERSION_window : MASK_VERSION = (2 ^ 18 - 1) <<< 0 := by decide
theorem MASK_POS_window : MASK_POS = (2 ^ 32 - 1) <<< 30 := by decide
theorem MASK_C_HASH_window : MASK_C_HASH = (2 ^ 1 - 1) <<< 29 := by decide
theorem MASK_INS_LEN_window : MASK_INS_LEN = (2 ^ 4 - 1) <<< 25 := by decide
theorem MASK_DEL_window : MASK_DEL = (2 ^ 7 - 1) <<< 18 := by decide
theorem MASK_INS_window : MASK_INS = (2 ^ 18 - 1) <<< 0 := by decide
theorem MASK_CH_window : MASK_CHANGE_HASH_VALUE = (2 ^ 29 - 1) <<< 0 := by decide

/-- Reading any of the (shifted-window) masks out of a non-negative value
is a shift followed by a power-of-two remainder. -/
theorem read_value_natCast (x w s M : Nat) (hM : M = (2 ^ w - 1) <<< s)
    (hs : lowestSetShift M = s) :
    read_value (x : Int) M = (((x >>> s) % 2 ^ w : Nat) : Int) := by
  rw [read_value, hs, pyAnd_natCast, pyShr_natCast, hM, window_extract]

/-- `_encode` on in-range non-negative fields packs the three disjoint
bit windows. -/
theorem gbEncodeFields_nat (t id v : Nat) (ht : t < 2 ^ 8) (hid : id < 2 ^ 37)
    (hv : v < 2 ^ 18) :
    gbEncodeFields (id : Int) (v : Int) (t : Int) =
      (((t <<< 55) ||| (id <<< 18) ||| v : Nat) : Int) := by
  unfold gbEncodeFields set_value
  dsimp only
  rw [shiftc_MASK_TYPE, shiftc_MASK_ID, shiftc_MASK_VERSION]
  rw [pyNot_natCast, pyNot_natCast, pyNot_natCast]
  rw [pyShl_natCast, pyShl_natCast, pyShl_natCast]
  rw [pyAnd_natCast, pyAnd_zero_negSucc, pyOr_zero]
  rw [MASK_TYPE_window, shiftLeft_and_window, Nat.mod_eq_of_lt ht]
  rw [pyAnd_natCast_negSucc, pyAnd_natCast]
  have d1 : (t <<< 55) &&& MASK_ID = 0 := by
    rw [MASK_ID_window]; exact and_window_hi t 37 55 18 (by norm_num)
  rw [d1, Nat.xor_zero, MASK_ID_window, shiftLeft_and_window,
    Nat.mod_eq_of_lt hid, pyOr_natCast]
  rw [pyAnd_natCast_negSucc, pyAnd_natCast]
  have d2 : ((t <<< 55) ||| (id <<< 18)) &&& MASK_VERSION = 0 := by
    rw [lor_and_right, MASK_VERSION_window]
    rw [and_window_hi t 18 55 0 (by norm_num), and_window_hi id 18 18 0 (by norm_num),
      Nat.or_zero]
  rw [d2, Nat.xor_zero, MASK_VERSION_window, shiftLeft_and_window,
    Nat.mod_eq_of_lt hv, Nat.shiftLeft_zero, pyOr_natCast]

/-- TYPE readback of a packed transcript triple. -/
theorem gb_read_type (t id v : Nat) (ht : t < 2 ^ 8) (hid : id < 2 ^ 37)
    (hv : v < 2 ^ 18) :
    read_value (((t <<< 55) ||| (id <<< 18) ||| v : Nat) : Int) MASK_TYPE =
      (t : Int) := by
  rw [read_value_natCast _ 8 55 _ MASK_TYPE_window shiftc_MASK_TYPE]
  congr 1
  rw [shiftRight_lor, shiftRight_lor]
  rw [Nat.shiftLeft_eq, Nat.shiftLeft_eq, Nat.shiftRight_eq_div_pow,
    Nat.shiftRight_eq_div_pow, Nat.shiftRight_eq_div_pow]
  have e1 : t * 2 ^ 55 / 2 ^ 55 = t := by
    rw [Nat.mul_div_cancel _ (by positivity)]
  have e2 : id * 2 ^ 18 / 2 ^ 55 = 0 := by
    apply Nat.div_eq_of_lt
    calc id * 2 ^ 18 < 2 ^ 37 * 2 ^ 18 :=
          (Nat.mul_lt_mul_right (by norm_num)).mpr hid
      _ ≤ 2 ^ 55 := by norm_num
  have e3 : v / 2 ^ 55 = 0 := Nat.div_eq_of_lt (lt_of_lt_of_le hv (by norm_num))
  rw [e1, e2, e3, Nat.or_zero, Nat.or_zero, Nat.mod_eq_of_lt ht]

/-- ID readback of a packed transcript triple. -/
theorem gb_read_id (t id v : Nat) (ht : t < 2 ^ 8) (hid : id < 2 ^ 37)
    (hv : v < 2 ^ 18) :
    read_value (((t <<< 55) ||| (id <<< 18) ||| v : Nat) : Int) MASK_ID =
      (id : Int) := by
  rw [read_value_natCast _ 37 18 _ MASK_ID_window shiftc_MASK_ID]
  congr 1
  rw [shiftRight_lor, shiftRight_lor, mod_two_pow_lor, mod_two_pow_lor]
  rw [Nat.shiftLeft_eq, Nat.shiftLeft_eq, Nat.shiftRight_eq_div_pow,
    Nat.shiftRight_eq_div_pow, Nat.shiftRight_eq_div_pow]
  have e1 : t * 2 ^ 55 / 2 ^ 18 % 2 ^ 37 = 0 := by
    have : t * 2 ^ 55 / 2 ^ 18 = t * 2 ^ 37 := by
      rw [show (2 : Nat) ^ 55 = 2 ^ 37 * 2 ^ 18 by norm_num, ← Nat.mul_assoc,
        Nat.mul_div_cancel _ (by positivity)]
    rw [this, Nat.mul_mod_left]
  have e2 : id * 2 ^ 18 / 2 ^ 18 % 2 ^ 37 = id := by
    rw [Nat.mul_div_cancel _ (by positivity), Nat.mod_eq_of_lt hid]
  have e3 : v / 2 ^ 18 % 2 ^ 37 = 0 := by
    rw [Nat.div_eq_of_lt hv, Nat.zero_mod]
  rw [e1, e2, e3, Nat.zero_or, Nat.or_zero]

/-- VERSION readback of a packed transcript triple. -/
theorem gb_read_version (t id v : Nat) (ht : t < 2 ^ 8) (hid : id < 2 ^ 37)
    (hv : v < 2 ^ 18) :
    read_value (((t <<< 55) ||| (id <<< 18) ||| v : Nat) : Int) MASK_VERSION =
      (v : Int) := by
  rw [read_value_natCast _ 18 0 _ MASK_VERSION_window shiftc_MASK_VERSION]
  congr 1
  rw [Nat.shiftRight_zero, mod_two_pow_lor, mod_two_pow_lor]
  rw [Nat.shiftLeft_eq, Nat.shiftLeft_eq]
  have e1 : t * 2 ^ 55 % 2 ^ 18 = 0 := by
    rw [show (2 : Nat) ^ 55 = 2 ^ 37 * 2 ^ 18 by norm_num, ← Nat.mul_assoc,
      Nat.mul_mod_left]
  have e2 : id * 2 ^ 18 % 2 ^ 18 = 0 := Nat.mul_mod_left _ _
  rw [e1, e2, Nat.mod_eq_of_lt hv, Nat.zero_or, Nat.zero_or]

/-!
## Claim theorems
-/

theorem pyListGet_big {α : Type} (l : List α) (i : Int)
    (h : (l.length : Int) ≤ i) : pyListGet l i = .error .indexError := by
  unfold pyListGet
  have h0 : ¬ i < 0 := by omega
  dsimp only
  rw [if_neg h0, if_pos (by omega)]
  have hn : l.get? i.toNat = none := by
    rw [List.get?_eq_getElem?]
    apply List.getElem?_eq_none
    omega
  rw [hn]

/-- C10: every 64-bit input whose TYPE bit field exceeds 11 makes
`GbIdentifierService.decode` and the `to_string` / `decode_transcript_id`
path raise `IndexError` (from indexing the 12-entry type list), not
`InvalidGbIdentifierException`. -/
theorem C10_decode_type_out_of_range (v : Int)
    (h : 11 < read_value v MASK_TYPE) :
    gbDecode v = .error .indexError ∧ gbToString v = .error .indexError := by
  have hlen : ((gbTypes.length : Nat) : Int) ≤ read_value v MASK_TYPE := by
    have : gbTypes.length = 12 := by decide
    rw [this]; omega
  unfold gbDecode gbToString gbIdentifierStr type_id_to_gbType
  rw [pyListGet_big _ _ hlen]
  exact ⟨rfl, rfl⟩

/-- C10 witness: the concrete input `12 <<< 55` (TYPE field 12) hits the
`IndexError` in both decode paths. -/
theorem C10_witness :
    11 < read_value (12 * 2 ^ 55) MASK_TYPE ∧
      gbDecode (12 * 2 ^ 55) = .error .indexError ∧
      gbToString (12 * 2 ^ 55) = .error .indexError :=
  ⟨by decide, C10_decode_type_out_of_range (12 * 2 ^ 55) (by decide)⟩

/-- C4: (code bug) decoding the encoding of `"unassigned_transcript_5"`
yields `"unassigned_transcript_000005"`: the `unassigned_transcript` type
is zero-padded to 6 digits like every other RefSeq type, because the
source's `self.get_type == GbIdentifierType.unassigned_transcript` test
compares a bound method object (missing call parentheses) with an enum
member and is therefore always False, making its `padding_size = 0`
branch — the behavior the specification describes — dead code. -/
theorem C4_unassigned_padding_bug :
    (gbEncode "unassigned_transcript_5".data).bind gbToString =
        .ok "unassigned_transcript_000005".data ∧
      "unassigned_transcript_000005".data ≠ "unassigned_transcript_5".data ∧
      (gbTypes.getD 10 ⟨[], 0, false, false⟩).padding_size = 0 := by
  refine ⟨by decide, by decide, by decide⟩

/-- C6 counterexample: `encode("ENSTX")` has a matching prefix but an
unparseable numeric portion; the claim says this raises
`InvalidGbIdentifierException`, but the source lets the bare `ValueError`
from `int()` propagate instead. -/
theorem C6_counterexample :
    gbEncode "ENSTX".data = .error .valueError ∧
      gbEncode "ENSTX".data ≠ .error .invalidIdentifier := by
  refine ⟨by decide, by decide⟩

theorem findGbType_none_iff (l : List GbType) (s : List Char) (i : Nat) :
    findGbType l s i = none ↔ ∀ t ∈ l, ¬ (t.prefixStr <+: s) := by
  induction l generalizing i with
  | nil => simp [findGbType]
  | cons t rest ih =>
    by_cases h : t.prefixStr.isPrefixOf s
    · rw [findGbType, if_pos h]
      simp only [List.mem_cons]
      constructor
      · intro hco; exact absurd hco (by simp)
      · intro hall
        exact absurd (List.isPrefixOf_iff_prefix.mp h) (hall t (Or.inl rfl))
    · rw [findGbType, if_neg h]
      rw [ih (i + 1)]
      constructor
      · intro hall t' ht'
        rcases List.mem_cons.mp ht' with rfl | hmem
        · exact fun hp => h (List.isPrefixOf_iff_prefix.mpr hp)
        · exact hall t' hmem
      · intro hall t' ht'
        exact hall t' (List.mem_cons_of_mem _ ht')

theorem pyInt_error_kind (s : List Char) (e : PyErr) (h : pyInt s = .error e) :
    e = .valueError := by
  unfold pyInt at h
  split at h <;> split at h <;> simp_all

theorem gbEncode_invalid_iff (s : List Char) :
    gbEncode s = .error .invalidIdentifier ↔
      ∀ t ∈ gbTypes, ¬ (t.prefixStr <+: s) := by
  rw [← findGbType_none_iff gbTypes s 0]
  unfold gbEncode
  cases hf : findGbType gbTypes s 0 with
  | none => simp
  | some pair =>
    obtain ⟨tid, t⟩ := pair
    simp only
    constructor
    · intro hco
      exfalso
      by_cases hdot : '.' ∈ s
      · rw [if_pos hdot] at hco
        split at hco
        next e heq =>
          have hk := pyInt_error_kind _ _ heq
          simp_all
        next a heq =>
          split at hco
          next e2 heq2 =>
            have hk := pyInt_error_kind _ _ heq2
            simp_all
          next b heq2 => exact Except.noConfusion hco
      · rw [if_neg hdot] at hco
        split at hco
        next e heq =>
          have hk := pyInt_error_kind _ _ heq
          simp_all
        next a heq => exact Except.noConfusion hco
    · intro hco
      exact absurd hco (by simp)

theorem gbEncode_error_kinds (s : List Char) (e : PyErr)
    (h : gbEncode s = .error e) :
    e = .invalidIdentifier ∨ e = .valueError := by
  unfold gbEncode at h
  cases hf : findGbType gbTypes s 0 with
  | none => rw [hf] at h; simp_all
  | some pair =>
    obtain ⟨tid, t⟩ := pair
    rw [hf] at h
    simp only at h
    by_cases hdot : '.' ∈ s
    · rw [if_pos hdot] at h
      split at h
      next e1 heq =>
        have hk := pyInt_error_kind _ _ heq
        simp_all
      next a heq =>
        split at h
        next e2 heq2 =>
          have hk := pyInt_error_kind _ _ heq2
          simp_all
        next b heq2 => exact Except.noConfusion h
    · rw [if_neg hdot] at h
      split at h
      next e1 heq =>
        have hk := pyInt_error_kind _ _ heq
        simp_all
      next a heq => exact Except.noConfusion h

/-- C6 (amended): `GbIdentifierService.encode` raises
`InvalidGbIdentifierException` exactly when no known prefix starts the
input (the first match in declared enumeration order wins); a matched
prefix with an unparseable numeric id / version portion instead raises
Python's `ValueError` (every failure of `encode` is one of these two
kinds).  Concretely, `encode("INVALID00000123456.1")` and `encode("")`
raise `InvalidGbIdentifierException`. -/
theorem C6_invalid_identifier_errors :
    (∀ s : List Char,
      gbEncode s = .error .invalidIdentifier ↔
        ∀ t ∈ gbTypes, ¬ (t.prefixStr <+: s)) ∧
    (∀ (s : List Char) (e : PyErr),
      gbEncode s = .error e → e = .invalidIdentifier ∨ e = .valueError) ∧
    gbEncode "INVALID00000123456.1".data = .error .invalidIdentifier ∧
    gbEncode "".data = .error .invalidIdentifier :=
  ⟨gbEncode_invalid_iff, gbEncode_error_kinds, by decide, by decide⟩

/-- C5 counterexample: with a non-zero integer `ref` and a non-empty
`alt`, `encode1based` does not use the integer directly — the trimming
loop's `ref[0]` subscripts an `int` and raises `TypeError`. -/
theorem C5_counterexample :
    encode1based "1".data 100 (.int 5) "A".data = .error .typeError ∧
      encode1based "1".data 100 (.int 5) "A".data ≠
        encodeSpdi "1".data 99 5 (pyUpper "A".data) :=
  ⟨by decide, by decide⟩

/-- C5 (amended): the integer form of `ref` is used directly as the
deletion length — without any prefix trimming — only when the trimming
loop's condition is falsy, i.e. when `alt` is empty or the integer is 0;
in every other case the loop evaluates `ref[0]` on an `int` and raises
`TypeError`. -/
theorem C5_int_ref_dual_mode (chrom : List Char) (pos n : Int)
    (alt : List Char) :
    (alt = [] ∨ n = 0 →
      encode1based chrom pos (.int n) alt =
        encodeSpdi chrom (pos - 1) n (pyUpper alt)) ∧
    (alt ≠ [] ∧ n ≠ 0 →
      encode1based chrom pos (.int n) alt = .error .typeError) := by
  have hne : pyUpper alt = [] ↔ alt = [] := by
    cases alt <;> simp [pyUpper]
  constructor
  · intro h
    unfold encode1based
    dsimp only
    rw [if_neg]
    intro hcon
    rcases h with h | h
    · exact hcon.2 (hne.mpr h)
    · exact hcon.1 h
  · intro h
    unfold encode1based
    dsimp only
    rw [if_pos ⟨h.2, fun hh => h.1 (hne.mp hh)⟩]

/-- C5 witness: a pure deletion (`alt = ""`) with integer `ref = 5` does
delegate with the integer as deletion length. -/
theorem C5_witness :
    (([] : List Char) = [] ∨ (5 : Int) = 0) ∧
      encode1based "1".data 100 (.int 5) [] =
        encodeSpdi "1".data 99 5 (pyUpper []) :=
  ⟨Or.inl rfl, (C5_int_ref_dual_mode "1".data 100 5 []).1 (Or.inl rfl)⟩

theorem stripCommon_eq (r : List Char) :
    ∀ (p : Int) (a : List Char),
      stripCommon p r a =
        (p + commonPrefixLen r a, r.drop (commonPrefixLen r a),
          a.drop (commonPrefixLen r a)) := by
  induction r with
  | nil =>
    intro p a
    cases a <;> simp [stripCommon, commonPrefixLen]
  | cons c rs ih =>
    intro p a
    cases a with
    | nil => simp [stripCommon, commonPrefixLen]
    | cons b bs =>
      by_cases h : c = b
      · subst h
        rw [stripCommon, if_pos rfl, ih]
        rw [commonPrefixLen, if_pos rfl]
        refine Prod.ext ?_ (Prod.ext ?_ ?_) <;> simp
        push_cast
        ring
      · rw [stripCommon, if_neg h, commonPrefixLen, if_neg h]
        simp

/-- C7: `encode1based` (the VCF entry point) with a string `ref` equals
`encodeSpdi` applied to the SPDI triple obtained independently: position
advanced by the length of the shared leading run of `ref` and
`uppercase(alt)`, deletion length the length of the remaining `ref`, and
insertion the remaining normalized `alt`. -/
theorem C7_vcf_spdi_equivalence (chrom : List Char) (pos : Int)
    (ref alt : List Char) :
    encode1based chrom pos (.str ref) alt =
      encodeSpdi chrom (pos - 1 + commonPrefixLen ref (pyUpper alt))
        ((ref.length - commonPrefixLen ref (pyUpper alt) : Nat) : Int)
        ((pyUpper alt).drop (commonPrefixLen ref (pyUpper alt))) := by
  unfold encode1based
  dsimp only
  rw [stripCommon_eq]
  simp

theorem encodeSpdi_congr_pid (c1 c2 : List Char) (p1 p2 del : Int)
    (ins : List Char)
    (h : posEncode (normChrom c1) p1 = posEncode (normChrom c2) p2) :
    encodeSpdi c1 p1 del ins = encodeSpdi c2 p2 del ins := by
  unfold encodeSpdi
  dsimp only
  rw [h]

/-- C9: variant GBIDs alias across chromosome boundaries — for every
chromosome after the first in the declared order, encoding at 0-based
position 0 gives the same packed integer as encoding on the preceding
chromosome at its declared length, for every deletion length and every
accepted insertion. -/
theorem C9_boundary_aliasing (i : Fin 25) (hi : 0 < i.val) (d : Int)
    (ins : List Char) (hins : ∀ c ∈ ins, c ∈ VALID_BASES) :
    encodeSpdi (chromosomes.getD i.val []) 0 d ins =
      encodeSpdi (chromosomes.getD (i.val - 1) [])
        ((sizes.getD (i.val - 1) 0 : Nat) : Int) d ins := by
  apply encodeSpdi_congr_pid
  revert hi
  revert i
  decide

/-- C9 witness: chromosome "2" at 0-based position 0 aliases chromosome
"1" at its declared length 248956422. -/
theorem C9_witness :
    0 < (1 : Fin 25).val ∧
      (∀ c ∈ ("A".data : List Char), c ∈ VALID_BASES) ∧
      encodeSpdi (chromosomes.getD 1 []) 0 1 "A".data =
        encodeSpdi (chromosomes.getD 0 [])
          ((sizes.getD 0 0 : Nat) : Int) 1 "A".data :=
  ⟨by decide, by decide,
    C9_boundary_aliasing 1 (by decide) 1 "A".data (by decide)⟩

theorem chromosomes_indexOf_getD :
    ∀ i : Fin 25, chromosomes.indexOf? (chromosomes.getD i.val []) = some i.val := by
  decide

theorem posEncode_getD (i : Fin 25) (p : Int) (h1 : 0 ≤ p)
    (h2 : p ≤ (sizes.getD i.val 0 : Nat)) :
    posEncode (chromosomes.getD i.val []) p =
      p - 1 + (offsets.getD i.val 0 : Nat) := by
  unfold posEncode
  rw [chromosomes_indexOf_getD i]
  dsimp only
  rw [if_neg (by omega)]

theorem offsets_sizes_le :
    ∀ i j : Fin 25, (i : Nat) < j →
      offsets.getD i.val 0 + sizes.getD i.val 0 ≤ offsets.getD j.val 0 := by
  decide

/-- C8: chromosome offsets are the exclusive prefix sums of the declared
lengths, so each offset is at least the preceding offset plus length;
`PositionEncoder.encode` is strictly increasing in the position within a
fixed supported chromosome and injective over the whole valid domain
(supported chromosome, `1 ≤ p ≤ length`). -/
theorem C8_offsets_monotone_injective :
    (∀ i j : Fin 25, (i : Nat) < j →
        offsets.getD i.val 0 + sizes.getD i.val 0 ≤ offsets.getD j.val 0) ∧
    (∀ (i : Fin 25) (p q : Int), 1 ≤ p → p < q →
        q ≤ (sizes.getD i.val 0 : Nat) →
        posEncode (chromosomes.getD i.val []) p <
          posEncode (chromosomes.getD i.val []) q) ∧
    (∀ (i j : Fin 25) (p q : Int), 1 ≤ p → p ≤ (sizes.getD i.val 0 : Nat) →
        1 ≤ q → q ≤ (sizes.getD j.val 0 : Nat) →
        posEncode (chromosomes.getD i.val []) p =
          posEncode (chromosomes.getD j.val []) q →
        i = j ∧ p = q) := by
  refine ⟨offsets_sizes_le, ?_, ?_⟩
  · intro i p q hp hpq hq
    rw [posEncode_getD i p (by omega) (by omega),
      posEncode_getD i q (by omega) (by omega)]
    omega
  · intro i j p q hp1 hp2 hq1 hq2 heq
    rw [posEncode_getD i p (by omega) (by omega),
      posEncode_getD j q (by omega) (by omega)] at heq
    rcases Nat.lt_trichotomy i.val j.val with hlt | heqv | hgt
    · exfalso
      have ho := offsets_sizes_le i j hlt
      omega
    · have hij : i = j := Fin.ext heqv
      subst hij
      exact ⟨rfl, by omega⟩
    · exfalso
      have ho := offsets_sizes_le j i hgt
      omega

/-- C8 witness: concrete instances — offsets, strict monotonicity and
injectivity at chromosomes "1" and "2". -/
theorem C8_witness :
    ((0 : Fin 25) : Nat) < (1 : Fin 25) ∧
      (1 : Int) ≤ 5 ∧ (5 : Int) < 7 ∧
      (7 : Int) ≤ (sizes.getD (0 : Fin 25).val 0 : Nat) ∧
      offsets.getD (0 : Fin 25).val 0 + sizes.getD (0 : Fin 25).val 0 ≤
        offsets.getD (1 : Fin 25).val 0 ∧
      posEncode (chromosomes.getD (0 : Fin 25).val []) 5 <
        posEncode (chromosomes.getD (0 : Fin 25).val []) 7 :=
  ⟨by decide, by norm_num, by norm_num, by decide,
    C8_offsets_monotone_injective.1 0 1 (by decide),
    C8_offsets_monotone_injective.2.1 0 5 7 (by norm_num) (by norm_num)
      (by decide)⟩

theorem contains_valid (c : Char) :
    (VALID_BASES.contains c = true) ↔ c ∈ VALID_BASES := by
  constructor
  · intro h
    simpa using h
  · intro h
    simpa using h

theorem encodeBasesGo_ok :
    ∀ ins : List Char, (∀ c ∈ ins, c ∈ VALID_BASES) → 'N' ∉ ins →
      ∀ i acc : Nat, ∃ n, encodeBasesGo ins i acc = .ok n := by
  intro ins
  induction ins with
  | nil => intro _ _ i acc; exact ⟨acc, rfl⟩
  | cons c rest ih =>
    intro h hn i acc
    have hc : c ∈ VALID_BASES := h c (List.mem_cons_self c rest)
    have hcn : c ≠ 'N' := fun hh => hn (hh ▸ List.mem_cons_self c rest)
    have hbe : ∃ v, BASE_ENCODING c = some v := by
      simp only [VALID_BASES, List.mem_cons, List.not_mem_nil, or_false] at hc
      rcases hc with rfl | rfl | rfl | rfl | rfl
      · exact ⟨0, rfl⟩
      · exact ⟨1, rfl⟩
      · exact ⟨2, rfl⟩
      · exact absurd rfl hcn
      · exact ⟨3, rfl⟩
    obtain ⟨v, hv⟩ := hbe
    rw [encodeBasesGo, hv]
    exact ih (fun c' h' => h c' (List.mem_cons_of_mem _ h'))
      (fun h' => hn (List.mem_cons_of_mem _ h')) (i + 1) _

/-- C2: `encodeSpdi` raises `InvalidPositionException` (the spec's
`InvalidVariant`) exactly when the position encoder's result is the
`CHR_NOT_SUPPORTED` value `-1` or the insertion contains a character
outside `{A,C,G,T,N}`; the out-of-range sentinel `-2` is not intercepted.
Concretely, `encode_spdi("1", 0, 1, "A")` raises (position 0 on
chromosome "1" yields global position `-1`, colliding with the
sentinel), while positions `-1` and `300_000_000` produce the `-2`
sentinel, which is silently packed into the position field of the (here
negative) result. -/
theorem C2_error_conditions :
    (∀ (chrom : List Char) (pos del : Int) (ins : List Char),
      encodeSpdi chrom pos del ins = .error .invalidPosition ↔
        (posEncode (normChrom chrom) pos = -1 ∨ ∃ c ∈ ins, c ∉ VALID_BASES)) ∧
    encodeSpdi "1".data 0 1 "A".data = .error .invalidPosition ∧
    encodeSpdi "1".data (-1) 1 "A".data = .ok (-2113667072) ∧
    encodeSpdi "1".data 300000000 1 "A".data = .ok (-2113667072) ∧
    read_value (-2113667072) MASK_POS = (-2 : Int) % (2 ^ 32) ∧
    posEncode "1".data (-1) = ERROR_WRONG_CHR_POSITION ∧
    posEncode "1".data 300000000 = ERROR_WRONG_CHR_POSITION := by
  refine ⟨?_, by decide, by decide, by decide, by decide, by decide, by decide⟩
  intro chrom pos del ins
  unfold encodeSpdi
  dsimp only
  by_cases h1 : posEncode (normChrom chrom) pos = -1
  · rw [if_pos h1]
    simp [h1]
  · rw [if_neg h1]
    by_cases h2 : ins.all VALID_BASES.contains
    · rw [if_neg (by simp [h2])]
      have hvalid : ∀ c ∈ ins, c ∈ VALID_BASES := fun c hc =>
        (contains_valid c).mp (List.all_eq_true.mp h2 c hc)
      constructor
      · intro hco
        exfalso
        by_cases h3 : (ins.length > MAX_INS_LENGTH ∨ del > MAX_DEL_LENGTH) ∨
            'N' ∈ ins
        · rw [if_pos h3] at hco
          exact Except.noConfusion hco
        · rw [if_neg h3] at hco
          have hn : 'N' ∉ ins := fun hh => h3 (Or.inr hh)
          obtain ⟨n, hok⟩ := encodeBasesGo_ok ins hvalid hn 0 0
          unfold encode_bases_fast at hco
          rw [hok] at hco
          exact Except.noConfusion hco
      · intro hco
        exfalso
        rcases hco with hco | ⟨c, hc, hnc⟩
        · exact h1 hco
        · exact hnc (hvalid c hc)
    · rw [if_pos (by simp [h2])]
      have hex : ∃ c ∈ ins, c ∉ VALID_BASES := by
        by_contra hno
        push_neg at hno
        exact h2 (List.all_eq_true.mpr fun c hc =>
          (contains_valid c).mpr (hno c hc))
      exact ⟨fun _ => Or.inr hex, fun _ => rfl⟩

theorem shiftLeft_and_lt (a s b : Nat) (h : b < 2 ^ s) :
    (a <<< s) &&& b = 0 := by
  apply Nat.eq_of_testBit_eq
  intro i
  simp only [Nat.testBit_land, Nat.testBit_shiftLeft, Nat.zero_testBit,
    ge_iff_le]
  by_cases h1 : s ≤ i
  · have : b < 2 ^ i := lt_of_lt_of_le h (Nat.pow_le_pow_right (by norm_num) h1)
    simp [Nat.testBit_lt_two_pow this]
  · simp [h1]

theorem xor_cancel_left (x y : Nat) : x ^^^ (x ^^^ y) = y := by
  rw [← Nat.xor_assoc, Nat.xor_self, Nat.zero_xor]

theorem shiftLeft_lor_eq_add (a b s : Nat) (hb : b < 2 ^ s) :
    (a <<< s) ||| b = a * 2 ^ s + b := by
  rw [Nat.shiftLeft_eq, Nat.mul_comm, ← Nat.mul_add_lt_is_or hb a, Nat.mul_comm]

theorem encodeBasesGo_eq :
    ∀ ins : List Char, (∀ c ∈ ins, c ∈ VALID_BASES) → 'N' ∉ ins →
      ∀ i acc : Nat,
        encodeBasesGo ins i acc = .ok (acc ||| (basesVal ins <<< (2 * i))) := by
  intro ins
  induction ins with
  | nil =>
    intro _ _ i acc
    simp [encodeBasesGo, basesVal]
  | cons c rest ih =>
    intro h hn i acc
    have hc : c ∈ VALID_BASES := h c (List.mem_cons_self c rest)
    have hcn : c ≠ 'N' := fun hh => hn (hh ▸ List.mem_cons_self c rest)
    have hbe : BASE_ENCODING c = some (baseCode c) := by
      simp only [VALID_BASES, List.mem_cons, List.not_mem_nil, or_false] at hc
      rcases hc with rfl | rfl | rfl | rfl | rfl
      · rfl
      · rfl
      · rfl
      · exact absurd rfl hcn
      · rfl
    rw [encodeBasesGo, hbe]
    dsimp only
    rw [Nat.mul_comm i 2,
      ih (fun c' h' => h c' (List.mem_cons_of_mem _ h'))
        (fun h' => hn (List.mem_cons_of_mem _ h')) (i + 1) _]
    congr 1
    rw [Nat.lor_assoc]
    congr 1
    rw [basesVal]
    have hsplit : (baseCode c + 4 * basesVal rest) <<< (2 * i) =
        (baseCode c <<< (2 * i)) ||| (basesVal rest <<< (2 * (i + 1))) := by
      have hb4 : baseCode c < 4 := by
        unfold baseCode
        split_ifs <;> norm_num
      have hlt : baseCode c <<< (2 * i) < 2 ^ (2 * i + 2) := by
        calc baseCode c <<< (2 * i) < 2 ^ (2 + 2 * i) :=
              Nat.shiftLeft_lt (show baseCode c < 2 ^ 2 by omega)
          _ = 2 ^ (2 * i + 2) := by ring_nf
      have : basesVal rest <<< (2 * (i + 1)) ||| (baseCode c <<< (2 * i)) =
          basesVal rest * 2 ^ (2 * (i + 1)) + baseCode c <<< (2 * i) := by
        rw [show 2 * (i + 1) = (2 * i + 2) by ring] at *
        exact shiftLeft_lor_eq_add _ _ _ hlt
      rw [Nat.lor_comm, this, Nat.shiftLeft_eq, Nat.shiftLeft_eq]
      ring_nf
    rw [hsplit]

theorem basesVal_lt : ∀ ins : List Char, basesVal ins < 4 ^ ins.length := by
  intro ins
  induction ins with
  | nil => simp [basesVal]
  | cons c rest ih =>
    rw [basesVal]
    have hb4 : baseCode c < 4 := by
      unfold baseCode
      split_ifs <;> norm_num
    calc baseCode c + 4 * basesVal rest < 4 + 4 * basesVal rest := by omega
      _ ≤ 4 * (basesVal rest + 1) := by omega
      _ ≤ 4 * 4 ^ rest.length := by
          have := ih
          exact Nat.mul_le_mul_left 4 (by omega)
      _ = 4 ^ (c :: rest).length := by
          rw [List.length_cons, Nat.pow_succ]
          ring

theorem offsets_length : offsets.length = 25 := by decide

theorem sizes_length : sizes.length = 25 := by decide

theorem off_size_bound :
    ∀ i : Nat, offsets.getD i 0 + sizes.getD i 0 ≤ 3088286401 := by
  intro i
  by_cases h : i < 25
  · exact (show ∀ j : Fin 25,
      offsets.getD j.val 0 + sizes.getD j.val 0 ≤ 3088286401 by decide) ⟨i, h⟩
  · rw [List.getD_eq_default _ _ (by rw [offsets_length]; omega),
      List.getD_eq_default _ _ (by rw [sizes_length]; omega)]
    norm_num

theorem posEncode_range (c : List Char) (p : Int) :
    posEncode c p = -1 ∨ posEncode c p = -2 ∨
      (0 ≤ posEncode c p ∧ posEncode c p < 4294967296) := by
  unfold posEncode
  cases hidx : chromosomes.indexOf? c with
  | none => left; rfl
  | some i =>
    dsimp only
    by_cases hcnd : p > ((sizes.getD i 0 : Nat) : Int) ∨ p < 0
    · right; left; rw [if_pos hcnd]; rfl
    · rw [if_neg hcnd]
      push_neg at hcnd
      by_cases hz : p - 1 + ((offsets.getD i 0 : Nat) : Int) = -1
      · left; exact hz
      · right; right
        have hb := off_size_bound i
        constructor
        · omega
        · omega

theorem shift_down_mod_zero (a s t w : Nat) (h : t + w ≤ s) :
    ((a <<< s) >>> t) % 2 ^ w = 0 := by
  rw [Nat.shiftLeft_eq, Nat.shiftRight_eq_div_pow]
  have h1 : a * 2 ^ s = a * 2 ^ (s - t - w) * 2 ^ w * 2 ^ t := by
    rw [Nat.mul_assoc, Nat.mul_assoc, ← Nat.pow_add, ← Nat.pow_add,
      show s - t - w + (w + t) = s by omega]
  rw [h1, Nat.mul_div_cancel _ (by positivity), Nat.mul_mod_left]

theorem shift_cancel (a s : Nat) : (a <<< s) >>> s = a := by
  rw [Nat.shiftLeft_eq, Nat.shiftRight_eq_div_pow,
    Nat.mul_div_cancel _ (by positivity)]

theorem small_shift_down (a t w : Nat) (h : a < 2 ^ t) :
    (a >>> t) % 2 ^ w = 0 := by
  rw [Nat.shiftRight_eq_div_pow, Nat.div_eq_of_lt h, Nat.zero_mod]

theorem change_hash_eq (d : Int) (ins : List Char) :
    change_hash d ins =
      hash_function (utf8Bytes (intToDigits d ++ ':' :: ins)) % 2 ^ 29 := by
  unfold change_hash
  rw [show MASK_CHANGE_HASH_VALUE = 2 ^ 29 - 1 by decide,
    Nat.and_pow_two_sub_one_eq_mod]

theorem change_hash_lt (d : Int) (ins : List Char) :
    change_hash d ins < 2 ^ 29 := by
  rw [change_hash_eq]
  exact Nat.mod_lt _ (by positivity)

theorem hash_value_nonneg (p ch : Nat) (hp : p < 2 ^ 32) (hch : ch < 2 ^ 29) :
    set_value (set_value (set_value 0 MASK_C_HASH 1) MASK_POS (p : Int))
        MASK_CHANGE_HASH_VALUE (ch : Int) =
      (((2 ^ 29 ||| (p <<< 30)) ||| ch : Nat) : Int) := by
  rw [show set_value 0 MASK_C_HASH 1 = ((2 ^ 29 : Nat) : Int) by decide]
  have step2 : set_value ((2 ^ 29 : Nat) : Int) MASK_POS (p : Int) =
      (((2 ^ 29 ||| (p <<< 30)) : Nat) : Int) := by
    unfold set_value
    rw [shiftc_MASK_POS, pyNot_natCast, pyShl_natCast, pyAnd_natCast_negSucc,
      pyAnd_natCast]
    rw [show (2 ^ 29 : Nat) &&& MASK_POS = 0 by decide, Nat.xor_zero]
    rw [MASK_POS_window, shiftLeft_and_window, Nat.mod_eq_of_lt hp,
      pyOr_natCast]
  rw [step2]
  unfold set_value
  rw [shiftc_MASK_CH, pyNot_natCast, pyShl_natCast, pyAnd_natCast_negSucc,
    pyAnd_natCast]
  have hx : (2 ^ 29 ||| (p <<< 30)) &&& MASK_CHANGE_HASH_VALUE = 0 := by
    rw [lor_and_right, MASK_CH_window,
      show ((2 : Nat) ^ 29) &&& ((2 ^ 29 - 1) <<< 0) = 0 by decide,
      and_window_hi p 29 30 0 (by norm_num), Nat.or_zero]
  rw [hx, Nat.xor_zero, Nat.shiftLeft_zero, MASK_CH_window, Nat.shiftLeft_zero,
    Nat.and_pow_two_sub_one_eq_mod, Nat.mod_eq_of_lt hch, pyOr_natCast]

theorem hash_value_neg2 (ch : Nat) (hch : ch < 2 ^ 29) :
    set_value (set_value (set_value 0 MASK_C_HASH 1) MASK_POS (-2 : Int))
        MASK_CHANGE_HASH_VALUE (ch : Int) =
      (((2 ^ 29 ||| ((2 ^ 32 - 2) <<< 30)) ||| ch : Nat) : Int) := by
  rw [show set_value (set_value 0 MASK_C_HASH 1) MASK_POS (-2 : Int) =
      (((2 ^ 29 ||| ((2 ^ 32 - 2) <<< 30) : Nat)) : Int) by decide]
  unfold set_value
  rw [shiftc_MASK_CH, pyNot_natCast, pyShl_natCast, pyAnd_natCast_negSucc,
    pyAnd_natCast]
  have hx : (2 ^ 29 ||| ((2 ^ 32 - 2) <<< 30)) &&& MASK_CHANGE_HASH_VALUE = 0 := by
    decide
  rw [hx, Nat.xor_zero, Nat.shiftLeft_zero, MASK_CH_window, Nat.shiftLeft_zero,
    Nat.and_pow_two_sub_one_eq_mod, Nat.mod_eq_of_lt hch, pyOr_natCast]

theorem hash_reads_nonneg (p ch : Nat) (hp : p < 2 ^ 32) (hch : ch < 2 ^ 29) :
    read_value ((((2 ^ 29 ||| (p <<< 30)) ||| ch : Nat)) : Int) MASK_C_HASH = 1 ∧
    read_value ((((2 ^ 29 ||| (p <<< 30)) ||| ch : Nat)) : Int) MASK_POS = (p : Int) ∧
    read_value ((((2 ^ 29 ||| (p <<< 30)) ||| ch : Nat)) : Int)
      MASK_CHANGE_HASH_VALUE = (ch : Int) := by
  refine ⟨?_, ?_, ?_⟩
  · rw [read_value_natCast _ 1 29 _ MASK_C_HASH_window shiftc_MASK_C_HASH]
    rw [shiftRight_lor, shiftRight_lor, mod_two_pow_lor, mod_two_pow_lor]
    rw [show ((2 ^ 29 : Nat) >>> 29) % 2 ^ 1 = 1 by decide,
      shift_down_mod_zero p 30 29 1 (by norm_num),
      small_shift_down ch 29 1 hch, Nat.or_zero, Nat.or_zero]
    norm_num
  · rw [read_value_natCast _ 32 30 _ MASK_POS_window shiftc_MASK_POS]
    rw [shiftRight_lor, shiftRight_lor, mod_two_pow_lor, mod_two_pow_lor]
    rw [show ((2 ^ 29 : Nat) >>> 30) % 2 ^ 32 = 0 by decide,
      shift_cancel p 30, Nat.mod_eq_of_lt hp,
      small_shift_down ch 30 32 (lt_trans hch (by norm_num)),
      Nat.zero_or, Nat.or_zero]
  · rw [read_value_natCast _ 29 0 _ MASK_CH_window shiftc_MASK_CH]
    rw [Nat.shiftRight_zero, mod_two_pow_lor, mod_two_pow_lor]
    rw [show ((2 ^ 29 : Nat)) % 2 ^ 29 = 0 by decide]
    have h2 : (p <<< 30) % 2 ^ 29 = 0 := by
      rw [Nat.shiftLeft_eq, show (2 : Nat) ^ 30 = 2 * 2 ^ 29 by norm_num,
        ← Nat.mul_assoc, Nat.mul_mod_left]
    rw [h2, Nat.mod_eq_of_lt hch, Nat.zero_or, Nat.zero_or]

theorem hash_reads_neg2 (ch : Nat) (hch : ch < 2 ^ 29) :
    read_value ((((2 ^ 29 ||| ((2 ^ 32 - 2) <<< 30)) ||| ch : Nat)) : Int)
        MASK_C_HASH = 1 ∧
    read_value ((((2 ^ 29 ||| ((2 ^ 32 - 2) <<< 30)) ||| ch : Nat)) : Int)
        MASK_POS = (-2 : Int) % 2 ^ 32 ∧
    read_value ((((2 ^ 29 ||| ((2 ^ 32 - 2) <<< 30)) ||| ch : Nat)) : Int)
        MASK_CHANGE_HASH_VALUE = (ch : Int) := by
  have h32 : (2 : Nat) ^ 32 - 2 < 2 ^ 32 := by norm_num
  refine ⟨?_, ?_, ?_⟩
  · exact (hash_reads_nonneg (2 ^ 32 - 2) ch h32 hch).1
  · rw [(hash_reads_nonneg (2 ^ 32 - 2) ch h32 hch).2.1]
    decide
  · exact (hash_reads_nonneg (2 ^ 32 - 2) ch h32 hch).2.2

theorem direct_value_nonneg (p len n bases : Nat) :
    pyOr (pyOr (pyOr (pyShl (p : Int) SHIFT_POS) (pyShl (len : Int) SHIFT_INS_LEN))
        (pyShl (n : Int) SHIFT_DEL)) (bases : Int) =
      (((((p <<< 30) ||| (len <<< 25)) ||| (n <<< 18)) ||| bases : Nat) : Int) := by
  simp [SHIFT_POS, SHIFT_INS_LEN, SHIFT_DEL]

theorem direct_reads_nat (p len n bases : Nat) (hp : p < 2 ^ 32)
    (hlen : len ≤ 9) (hn : n ≤ 127) (hb : bases < 2 ^ 18) :
    read_value (((((p <<< 30) ||| (len <<< 25)) ||| (n <<< 18)) ||| bases : Nat) : Int)
        MASK_POS = (p : Int) ∧
    read_value (((((p <<< 30) ||| (len <<< 25)) ||| (n <<< 18)) ||| bases : Nat) : Int)
        MASK_INS_LEN = (len : Int) ∧
    read_value (((((p <<< 30) ||| (len <<< 25)) ||| (n <<< 18)) ||| bases : Nat) : Int)
        MASK_DEL = (n : Int) ∧
    read_value (((((p <<< 30) ||| (len <<< 25)) ||| (n <<< 18)) ||| bases : Nat) : Int)
        MASK_INS = (bases : Int) ∧
    read_value (((((p <<< 30) ||| (len <<< 25)) ||| (n <<< 18)) ||| bases : Nat) : Int)
        MASK_C_HASH = 0 := by
  have hlen16 : len < 2 ^ 4 := by omega
  have hn128 : n < 2 ^ 7 := by omega
  have hy1 : len <<< 25 < 2 ^ 29 := by
    calc len <<< 25 < 2 ^ (4 + 25) := Nat.shiftLeft_lt hlen16
      _ = 2 ^ 29 := by norm_num
  have hy2 : n <<< 18 < 2 ^ 25 := by
    calc n <<< 18 < 2 ^ (7 + 18) := Nat.shiftLeft_lt hn128
      _ = 2 ^ 25 := by norm_num
  refine ⟨?_, ?_, ?_, ?_, ?_⟩
  · rw [read_value_natCast _ 32 30 _ MASK_POS_window shiftc_MASK_POS]
    rw [shiftRight_lor, shiftRight_lor, shiftRight_lor, mod_two_pow_lor,
      mod_two_pow_lor, mod_two_pow_lor]
    rw [shift_cancel p 30, Nat.mod_eq_of_lt hp,
      small_shift_down _ 30 32 (lt_trans hy1 (by norm_num)),
      small_shift_down _ 30 32 (lt_trans hy2 (by norm_num)),
      small_shift_down _ 30 32 (lt_trans hb (by norm_num)),
      Nat.or_zero, Nat.or_zero, Nat.or_zero]
  · rw [read_value_natCast _ 4 25 _ MASK_INS_LEN_window shiftc_MASK_INS_LEN]
    rw [shiftRight_lor, shiftRight_lor, shiftRight_lor, mod_two_pow_lor,
      mod_two_pow_lor, mod_two_pow_lor]
    rw [shift_down_mod_zero p 30 25 4 (by norm_num),
      shift_cancel len 25, Nat.mod_eq_of_lt hlen16,
      small_shift_down _ 25 4 hy2,
      small_shift_down _ 25 4 (lt_trans hb (by norm_num)),
      Nat.zero_or, Nat.or_zero, Nat.or_zero]
  · rw [read_value_natCast _ 7 18 _ MASK_DEL_window shiftc_MASK_DEL]
    rw [shiftRight_lor, shiftRight_lor, shiftRight_lor, mod_two_pow_lor,
      mod_two_pow_lor, mod_two_pow_lor]
    rw [shift_down_mod_zero p 30 18 7 (by norm_num),
      shift_down_mod_zero len 25 18 7 (by norm_num),
      shift_cancel n 18, Nat.mod_eq_of_lt hn128,
      small_shift_down _ 18 7 hb,
      Nat.zero_or, Nat.zero_or, Nat.or_zero]
  · rw [read_value_natCast _ 18 0 _ MASK_INS_window shiftc_MASK_INS]
    rw [Nat.shiftRight_zero, mod_two_pow_lor, mod_two_pow_lor, mod_two_pow_lor]
    have z1 : (p <<< 30) % 2 ^ 18 = 0 := by
      rw [Nat.shiftLeft_eq, show (2 : Nat) ^ 30 = 2 ^ 12 * 2 ^ 18 by norm_num,
        ← Nat.mul_assoc, Nat.mul_mod_left]
    have z2 : (len <<< 25) % 2 ^ 18 = 0 := by
      rw [Nat.shiftLeft_eq, show (2 : Nat) ^ 25 = 2 ^ 7 * 2 ^ 18 by norm_num,
        ← Nat.mul_assoc, Nat.mul_mod_left]
    have z3 : (n <<< 18) % 2 ^ 18 = 0 := by
      rw [Nat.shiftLeft_eq, Nat.mul_mod_left]
    rw [z1, z2, z3, Nat.mod_eq_of_lt hb, Nat.zero_or, Nat.zero_or, Nat.zero_or]
  · rw [read_value_natCast _ 1 29 _ MASK_C_HASH_window shiftc_MASK_C_HASH]
    rw [shiftRight_lor, shiftRight_lor, shiftRight_lor, mod_two_pow_lor,
      mod_two_pow_lor, mod_two_pow_lor]
    rw [shift_down_mod_zero p 30 29 1 (by norm_num),
      small_shift_down _ 29 1 hy1,
      small_shift_down _ 29 1 (lt_trans hy2 (by norm_num)),
      small_shift_down _ 29 1 (lt_trans hb (by norm_num)),
      Nat.or_zero, Nat.or_zero, Nat.or_zero]
    norm_num

theorem direct_value_neg2 (len n bases : Nat) (hlen : len ≤ 9) (hn : n ≤ 127)
    (hb : bases < 2 ^ 18) :
    pyOr (pyOr (pyOr (pyShl (-2 : Int) SHIFT_POS) (pyShl (len : Int) SHIFT_INS_LEN))
        (pyShl (n : Int) SHIFT_DEL)) (bases : Int) =
      Int.negSucc ((2 ^ 31 - 1) ^^^
        (((len <<< 25) ||| (n <<< 18)) ||| bases)) := by
  have hlen16 : len < 2 ^ 4 := by omega
  have hn128 : n < 2 ^ 7 := by omega
  have hy1 : len <<< 25 < 2 ^ 29 := by
    calc len <<< 25 < 2 ^ (4 + 25) := Nat.shiftLeft_lt hlen16
      _ = 2 ^ 29 := by norm_num
  have hy2 : n <<< 18 < 2 ^ 25 := by
    calc n <<< 18 < 2 ^ (7 + 18) := Nat.shiftLeft_lt hn128
      _ = 2 ^ 25 := by norm_num
  have hd12 : (len <<< 25) &&& (n <<< 18) = 0 :=
    shiftLeft_and_lt len 25 _ hy2
  have hd13 : (len <<< 25) &&& bases = 0 :=
    shiftLeft_and_lt len 25 _ (lt_trans hb (by norm_num))
  have hd23 : (n <<< 18) &&& bases = 0 := shiftLeft_and_lt n 18 _ hb
  rw [show pyShl (-2 : Int) SHIFT_POS = Int.negSucc (2 ^ 31 - 1) by decide]
  rw [show SHIFT_INS_LEN = 25 from rfl, show SHIFT_DEL = 18 from rfl,
    pyShl_natCast, pyShl_natCast, pyOr_negSucc_natCast]
  have s1 : (2 ^ 31 - 1) &&& (len <<< 25) = len <<< 25 := by
    rw [Nat.land_comm, Nat.and_pow_two_sub_one_eq_mod,
      Nat.mod_eq_of_lt (lt_trans hy1 (by norm_num))]
  rw [s1, pyOr_negSucc_natCast]
  have s2 : ((2 ^ 31 - 1) ^^^ (len <<< 25)) &&& (n <<< 18) = n <<< 18 := by
    rw [Nat.and_xor_distrib_right, Nat.land_comm _ (n <<< 18),
      Nat.and_pow_two_sub_one_eq_mod,
      Nat.mod_eq_of_lt (lt_trans hy2 (by norm_num)),
      Nat.land_comm _ (n <<< 18), Nat.land_comm (n <<< 18) (len <<< 25), hd12,
      Nat.xor_zero]
  rw [s2, pyOr_negSucc_natCast]
  have s3 : (((2 ^ 31 - 1) ^^^ (len <<< 25)) ^^^ (n <<< 18)) &&& bases = bases := by
    rw [Nat.and_xor_distrib_right, Nat.and_xor_distrib_right,
      Nat.land_comm _ bases, Nat.and_pow_two_sub_one_eq_mod,
      Nat.mod_eq_of_lt (lt_trans hb (by norm_num)),
      Nat.land_comm _ bases, Nat.land_comm bases (len <<< 25), hd13,
      Nat.land_comm (n <<< 18) bases, Nat.land_comm bases (n <<< 18), hd23,
      Nat.xor_zero, Nat.xor_zero]
  rw [s3]
  congr 1
  rw [Nat.xor_assoc, Nat.xor_assoc]
  congr 1
  rw [xor_of_disjoint _ _ hd23]
  rw [xor_of_disjoint _ _
    (by rw [Nat.and_or_distrib_left, hd12, hd13, Nat.or_zero])]
  rw [Nat.lor_assoc]

theorem read_value_negSucc (A M : Nat) :
    read_value (Int.negSucc A) M =
      (((M ^^^ (M &&& A)) >>> lowestSetShift M : Nat) : Int) := by
  unfold read_value
  rw [pyAnd_negSucc_natCast, pyShr_natCast]

theorem direct_reads_neg2 (len n bases : Nat) (hlen : len ≤ 9) (hn : n ≤ 127)
    (hb : bases < 2 ^ 18) :
    read_value (Int.negSucc ((2 ^ 31 - 1) ^^^
        (((len <<< 25) ||| (n <<< 18)) ||| bases))) MASK_POS =
      (-2 : Int) % 2 ^ 32 ∧
    read_value (Int.negSucc ((2 ^ 31 - 1) ^^^
        (((len <<< 25) ||| (n <<< 18)) ||| bases))) MASK_INS_LEN = (len : Int) ∧
    read_value (Int.negSucc ((2 ^ 31 - 1) ^^^
        (((len <<< 25) ||| (n <<< 18)) ||| bases))) MASK_DEL = (n : Int) ∧
    read_value (Int.negSucc ((2 ^ 31 - 1) ^^^
        (((len <<< 25) ||| (n <<< 18)) ||| bases))) MASK_INS = (bases : Int) ∧
    read_value (Int.negSucc ((2 ^ 31 - 1) ^^^
        (((len <<< 25) ||| (n <<< 18)) ||| bases))) MASK_C_HASH = 0 := by
  have hlen16 : len < 2 ^ 4 := by omega
  have hn128 : n < 2 ^ 7 := by omega
  have hy1 : len <<< 25 < 2 ^ 29 := by
    calc len <<< 25 < 2 ^ (4 + 25) := Nat.shiftLeft_lt hlen16
      _ = 2 ^ 29 := by norm_num
  have hy2 : n <<< 18 < 2 ^ 25 := by
    calc n <<< 18 < 2 ^ (7 + 18) := Nat.shiftLeft_lt hn128
      _ = 2 ^ 25 := by norm_num
  refine ⟨?_, ?_, ?_, ?_, ?_⟩
  · rw [read_value_negSucc, shiftc_MASK_POS, Nat.and_xor_distrib_left]
    rw [show MASK_POS &&& (2 ^ 31 - 1) = 2 ^ 30 by decide]
    have hz : MASK_POS &&& (((len <<< 25) ||| (n <<< 18)) ||| bases) = 0 := by
      rw [Nat.and_or_distrib_left, Nat.and_or_distrib_left,
        Nat.land_comm MASK_POS (len <<< 25), Nat.land_comm MASK_POS (n <<< 18),
        Nat.land_comm MASK_POS bases, MASK_POS_window,
        and_window_lo _ 32 30 (lt_trans hy1 (by norm_num)),
        and_window_lo _ 32 30 (lt_trans hy2 (by norm_num)),
        and_window_lo _ 32 30 (lt_trans hb (by norm_num)), Nat.or_zero,
        Nat.or_zero]
    rw [hz, Nat.xor_zero,
      show ((MASK_POS ^^^ 2 ^ 30) >>> 30 : Nat) = 2 ^ 32 - 2 by decide]
    decide
  · rw [read_value_negSucc, shiftc_MASK_INS_LEN, Nat.and_xor_distrib_left]
    rw [show MASK_INS_LEN &&& (2 ^ 31 - 1) = MASK_INS_LEN by decide]
    have hz : MASK_INS_LEN &&& (((len <<< 25) ||| (n <<< 18)) ||| bases) =
        len <<< 25 := by
      rw [Nat.and_or_distrib_left, Nat.and_or_distrib_left,
        Nat.land_comm MASK_INS_LEN (len <<< 25),
        Nat.land_comm MASK_INS_LEN (n <<< 18),
        Nat.land_comm MASK_INS_LEN bases, MASK_INS_LEN_window,
        shiftLeft_and_window, Nat.mod_eq_of_lt hlen16,
        and_window_lo _ 4 25 hy2,
        and_window_lo _ 4 25 (lt_trans hb (by norm_num)), Nat.or_zero,
        Nat.or_zero]
    rw [hz, xor_cancel_left, shift_cancel]
  · rw [read_value_negSucc, shiftc_MASK_DEL, Nat.and_xor_distrib_left]
    rw [show MASK_DEL &&& (2 ^ 31 - 1) = MASK_DEL by decide]
    have hz : MASK_DEL &&& (((len <<< 25) ||| (n <<< 18)) ||| bases) =
        n <<< 18 := by
      rw [Nat.and_or_distrib_left, Nat.and_or_distrib_left,
        Nat.land_comm MASK_DEL (len <<< 25), Nat.land_comm MASK_DEL (n <<< 18),
        Nat.land_comm MASK_DEL bases, MASK_DEL_window,
        and_window_hi len 7 25 18 (by norm_num),
        shiftLeft_and_window, Nat.mod_eq_of_lt hn128,
        and_window_lo _ 7 18 hb, Nat.zero_or, Nat.or_zero]
    rw [hz, xor_cancel_left, shift_cancel]
  · rw [read_value_negSucc, shiftc_MASK_INS, Nat.and_xor_distrib_left]
    rw [show MASK_INS &&& (2 ^ 31 - 1) = MASK_INS by decide]
    have hz : MASK_INS &&& (((len <<< 25) ||| (n <<< 18)) ||| bases) =
        bases := by
      rw [Nat.and_or_distrib_left, Nat.and_or_distrib_left,
        Nat.land_comm MASK_INS (len <<< 25), Nat.land_comm MASK_INS (n <<< 18),
        Nat.land_comm MASK_INS bases, MASK_INS_window,
        and_window_hi len 18 25 0 (by norm_num),
        and_window_hi n 18 18 0 (by norm_num), Nat.shiftLeft_zero,
        Nat.and_pow_two_sub_one_eq_mod, Nat.mod_eq_of_lt hb, Nat.zero_or,
        Nat.zero_or]
    rw [hz, xor_cancel_left, Nat.shiftRight_zero]
  · rw [read_value_negSucc, shiftc_MASK_C_HASH, Nat.and_xor_distrib_left]
    rw [show MASK_C_HASH &&& (2 ^ 31 - 1) = MASK_C_HASH by decide]
    have hz : MASK_C_HASH &&& (((len <<< 25) ||| (n <<< 18)) ||| bases) = 0 := by
      rw [Nat.and_or_distrib_left, Nat.and_or_distrib_left,
        Nat.land_comm MASK_C_HASH (len <<< 25),
        Nat.land_comm MASK_C_HASH (n <<< 18),
        Nat.land_comm MASK_C_HASH bases, MASK_C_HASH_window,
        and_window_lo _ 1 29 hy1,
        and_window_lo _ 1 29 (lt_trans hy2 (by norm_num)),
        and_window_lo _ 1 29 (lt_trans hb (by norm_num)), Nat.or_zero,
        Nat.or_zero]
    rw [hz, Nat.xor_zero, Nat.xor_self, Nat.zero_shiftRight]
    norm_num

/-- C3: for every accepted input (with a non-negative deletion length,
the domain of the SPDI data model), the CHANGE_HASH flag bit of the
result is set iff `len(insertion) > 9` or `deletion_length > 127` or the
insertion contains `'N'`; when set, the result carries POSITION =
`positionId` (masked to the 32-bit field) and CHANGE_HASH_VALUE = the low
64 bits of the 128-bit MurmurHash3 of the UTF-8 bytes of
`"{deletion_length}:{insertion}"` reduced to the 29-bit field; otherwise
the direct layout holds: POSITION, INS_LEN, DEL_LEN and the 2-bit-per-base
insertion code (A=0, C=1, G=2, T=3, first base lowest) fill their fields
and the flag is clear. -/
theorem C3_change_hash_selection (chrom : List Char) (pos del : Int)
    (ins : List Char) (v : Int) (hdel : 0 ≤ del)
    (henc : encodeSpdi chrom pos del ins = .ok v) :
    ((read_value v MASK_C_HASH = 1) ↔
      (9 < ins.length ∨ 127 < del ∨ 'N' ∈ ins)) ∧
    ((9 < ins.length ∨ 127 < del ∨ 'N' ∈ ins) →
      read_value v MASK_POS = posEncode (normChrom chrom) pos % 2 ^ 32 ∧
      read_value v MASK_CHANGE_HASH_VALUE =
        ((hash_function (utf8Bytes (intToDigits del ++ ':' :: ins)) % 2 ^ 29 :
          Nat) : Int)) ∧
    (¬ (9 < ins.length ∨ 127 < del ∨ 'N' ∈ ins) →
      read_value v MASK_POS = posEncode (normChrom chrom) pos % 2 ^ 32 ∧
      read_value v MASK_INS_LEN = (ins.length : Int) ∧
      read_value v MASK_DEL = del ∧
      read_value v MASK_INS = ((basesVal ins : Nat) : Int) ∧
      read_value v MASK_C_HASH = 0) := by
  unfold encodeSpdi at henc
  dsimp only at henc
  by_cases h1 : posEncode (normChrom chrom) pos = -1
  · rw [if_pos h1] at henc
    exact absurd henc (by simp)
  rw [if_neg h1] at henc
  by_cases h2 : ins.all VALID_BASES.contains
  swap
  · rw [if_pos (by simp [h2])] at henc
    exact absurd henc (by simp)
  rw [if_neg (by simp [h2])] at henc
  have hvalid : ∀ c ∈ ins, c ∈ VALID_BASES := fun c hc =>
    (contains_valid c).mp (List.all_eq_true.mp h2 c hc)
  have hcond : ((ins.length > MAX_INS_LENGTH ∨ del > MAX_DEL_LENGTH) ∨
      'N' ∈ ins) ↔ (9 < ins.length ∨ 127 < del ∨ 'N' ∈ ins) := by
    unfold MAX_INS_LENGTH MAX_DEL_LENGTH
    norm_num
    tauto
  set pid := posEncode (normChrom chrom) pos with hpiddef
  have hpidr := posEncode_range (normChrom chrom) pos
  rw [← hpiddef] at hpidr
  by_cases h3 : 9 < ins.length ∨ 127 < del ∨ 'N' ∈ ins
  · rw [if_pos (hcond.mpr h3)] at henc
    have hch : change_hash del ins < 2 ^ 29 := change_hash_lt del ins
    have hv : v = set_value (set_value (set_value 0 MASK_C_HASH 1) MASK_POS
        pid) MASK_CHANGE_HASH_VALUE ((change_hash del ins : Nat) : Int) :=
      (Except.ok.inj henc).symm
    rcases hpidr with hr | hr | hr
    · exact absurd hr h1
    · rw [hr, hash_value_neg2 _ hch] at hv
      obtain ⟨r1, r2, r3⟩ := hash_reads_neg2 (change_hash del ins) hch
      subst hv
      refine ⟨⟨fun _ => h3, fun _ => r1⟩, fun _ => ⟨?_, ?_⟩,
        fun hc => absurd h3 hc⟩
      · rw [r2, hr]
      · rw [r3, change_hash_eq]
    · obtain ⟨hge, hlt⟩ := hr
      have hp : pid = ((pid.toNat : Nat) : Int) := (Int.toNat_of_nonneg hge).symm
      have hplt : pid.toNat < 2 ^ 32 := by omega
      rw [hp, hash_value_nonneg _ _ hplt hch] at hv
      obtain ⟨r1, r2, r3⟩ :=
        hash_reads_nonneg pid.toNat (change_hash del ins) hplt hch
      subst hv
      refine ⟨⟨fun _ => h3, fun _ => r1⟩, fun _ => ⟨?_, ?_⟩,
        fun hc => absurd h3 hc⟩
      · rw [r2, ← hp, Int.emod_eq_of_lt hge
          (by rw [show ((2 : Int) ^ 32) = 4294967296 by norm_num]; exact hlt)]
      · rw [r3, change_hash_eq]
  · rw [if_neg (fun hc => h3 (hcond.mp hc))] at henc
    push_neg at h3
    obtain ⟨hlen9, hdel127, hnn⟩ := h3
    have hbases : encode_bases_fast ins = .ok (basesVal ins) := by
      unfold encode_bases_fast
      rw [encodeBasesGo_eq ins hvalid hnn 0 0, Nat.mul_zero,
        Nat.shiftLeft_zero, Nat.zero_or]
    rw [hbases] at henc
    have hv : v = pyOr (pyOr (pyOr (pyShl pid SHIFT_POS)
        (pyShl ((ins.length : Nat) : Int) SHIFT_INS_LEN)) (pyShl del SHIFT_DEL))
        ((basesVal ins : Nat) : Int) := (Except.ok.inj henc).symm
    have hbv : basesVal ins < 2 ^ 18 := by
      calc basesVal ins < 4 ^ ins.length := basesVal_lt ins
        _ ≤ 4 ^ 9 := Nat.pow_le_pow_right (by norm_num) hlen9
        _ ≤ 2 ^ 18 := by norm_num
    have hdn : del = ((del.toNat : Nat) : Int) := (Int.toNat_of_nonneg hdel).symm
    have hnd127 : del.toNat ≤ 127 := by omega
    have hnotc : ¬ (9 < ins.length ∨ 127 < del ∨ 'N' ∈ ins) := by
      push_neg
      exact ⟨hlen9, hdel127, hnn⟩
    rcases hpidr with hr | hr | hr
    · exact absurd hr h1
    · rw [hr, hdn,
        direct_value_neg2 ins.length del.toNat (basesVal ins) hlen9 hnd127 hbv]
        at hv
      obtain ⟨r1, r2, r3, r4, r5⟩ :=
        direct_reads_neg2 ins.length del.toNat (basesVal ins) hlen9 hnd127 hbv
      subst hv
      refine ⟨⟨fun h01 => absurd (r5 ▸ h01) (by norm_num),
        fun hcon => absurd hcon hnotc⟩, fun hc => absurd hc hnotc,
        fun _ => ⟨?_, r2, ?_, r4, r5⟩⟩
      · rw [r1, hr]
      · rw [r3, ← hdn]
    · obtain ⟨hge, hlt⟩ := hr
      have hp : pid = ((pid.toNat : Nat) : Int) := (Int.toNat_of_nonneg hge).symm
      have hplt : pid.toNat < 2 ^ 32 := by omega
      rw [hp, hdn,
        direct_value_nonneg pid.toNat ins.length del.toNat (basesVal ins)]
        at hv
      obtain ⟨r1, r2, r3, r4, r5⟩ :=
        direct_reads_nat pid.toNat ins.length del.toNat (basesVal ins) hplt
          hlen9 hnd127 hbv
      subst hv
      refine ⟨⟨fun h01 => absurd (r5 ▸ h01) (by norm_num),
        fun hcon => absurd hcon hnotc⟩, fun hc => absurd hc hnotc,
        fun _ => ⟨?_, r2, ?_, r4, r5⟩⟩
      · rw [r1, ← hp, Int.emod_eq_of_lt hge
          (by rw [show ((2 : Int) ^ 32) = 4294967296 by norm_num]; exact hlt)]
      · rw [r3, ← hdn]

/-- C3 witness: the concrete SNV `encodeSpdi("1", 11, 1, "C")` (packed
value 10771234817) instantiates the layout theorem on the direct path. -/
theorem C3_witness :
    ((read_value (10771234817 : Int) MASK_C_HASH = 1) ↔
      (9 < "C".data.length ∨ 127 < (1 : Int) ∨ 'N' ∈ "C".data)) ∧
    ((9 < "C".data.length ∨ 127 < (1 : Int) ∨ 'N' ∈ "C".data) →
      read_value (10771234817 : Int) MASK_POS =
        posEncode (normChrom "1".data) 11 % 2 ^ 32 ∧
      read_value (10771234817 : Int) MASK_CHANGE_HASH_VALUE =
        ((hash_function (utf8Bytes (intToDigits 1 ++ ':' :: "C".data)) % 2 ^ 29 :
          Nat) : Int)) ∧
    (¬ (9 < "C".data.length ∨ 127 < (1 : Int) ∨ 'N' ∈ "C".data) →
      read_value (10771234817 : Int) MASK_POS =
        posEncode (normChrom "1".data) 11 % 2 ^ 32 ∧
      read_value (10771234817 : Int) MASK_INS_LEN = ("C".data.length : Int) ∧
      read_value (10771234817 : Int) MASK_DEL = (1 : Int) ∧
      read_value (10771234817 : Int) MASK_INS = ((basesVal "C".data : Nat) : Int) ∧
      read_value (10771234817 : Int) MASK_C_HASH = 0) :=
  C3_change_hash_selection "1".data 11 1 "C".data 10771234817 (by norm_num)
    (by decide)

theorem natToDigitsAux_fuel :
    ∀ (n : Nat), ∀ fuel fuel' acc, n < fuel → n < fuel' →
      natToDigitsAux fuel n acc = natToDigitsAux fuel' n acc := by
  intro n
  induction n using Nat.strong_induction_on with
  | _ n ih =>
    intro fuel fuel' acc hf hf'
    match fuel, fuel' with
    | f + 1, f' + 1 =>
      rw [natToDigitsAux, natToDigitsAux]
      by_cases h : n < 10
      · rw [if_pos h, if_pos h]
      · rw [if_neg h, if_neg h]
        exact ih (n / 10) (Nat.div_lt_self (by omega) (by omega)) f f' _
          (by omega) (by omega)

theorem natToDigitsAux_append :
    ∀ (n : Nat), ∀ fuel acc, n < fuel →
      natToDigitsAux fuel n acc = natToDigitsAux fuel n [] ++ acc := by
  intro n
  induction n using Nat.strong_induction_on with
  | _ n ih =>
    intro fuel acc hf
    match fuel with
    | f + 1 =>
      rw [natToDigitsAux, natToDigitsAux]
      by_cases h : n < 10
      · rw [if_pos h, if_pos h]
        rfl
      · rw [if_neg h, if_neg h]
        have hd : n / 10 < f := by
          have := Nat.div_lt_self (show 0 < n by omega) (show 1 < 10 by omega)
          omega
        rw [ih (n / 10) (Nat.div_lt_self (by omega) (by omega)) f _ hd,
          ih (n / 10) (Nat.div_lt_self (by omega) (by omega)) f
            [digitChar (n % 10)] hd, List.append_assoc]
        rfl

theorem natToDigits_small (n : Nat) (h : n < 10) :
    natToDigits n = [digitChar n] := by
  rw [natToDigits, natToDigitsAux, if_pos h]

theorem natToDigits_step (n : Nat) (h : ¬ n < 10) :
    natToDigits n = natToDigits (n / 10) ++ [digitChar (n % 10)] := by
  rw [natToDigits, natToDigits, natToDigitsAux, if_neg h]
  have hd : n / 10 < n := Nat.div_lt_self (by omega) (by omega)
  rw [natToDigitsAux_append (n / 10) n [digitChar (n % 10)] hd,
    natToDigitsAux_fuel (n / 10) n (n / 10 + 1) [] hd (by omega)]

theorem natToDigits_digits :
    ∀ n : Nat, ∀ c ∈ natToDigits n, '0' ≤ c ∧ c ≤ '9' := by
  intro n
  induction n using Nat.strong_induction_on with
  | _ n ih =>
    intro c hc
    by_cases h : n < 10
    · rw [natToDigits_small n h] at hc
      simp only [List.mem_singleton] at hc
      subst hc
      unfold digitChar
      interval_cases n <;> exact ⟨by decide, by decide⟩
    · rw [natToDigits_step n h] at hc
      rcases List.mem_append.mp hc with hm | hm
      · exact ih (n / 10) (Nat.div_lt_self (by omega) (by omega)) c hm
      · simp only [List.mem_singleton] at hm
        subst hm
        unfold digitChar
        have h10 : n % 10 < 10 := Nat.mod_lt _ (by omega)
        interval_cases hh : (n % 10) <;> exact ⟨by decide, by decide⟩

theorem natToDigits_ne_nil (n : Nat) : natToDigits n ≠ [] := by
  by_cases h : n < 10
  · rw [natToDigits_small n h]
    simp
  · rw [natToDigits_step n h]
    simp

theorem natToDigits_foldl (n : Nat) :
    (natToDigits n).foldl (fun a c => a * 10 + (c.toNat - 48)) 0 = n := by
  induction n using Nat.strong_induction_on with
  | _ n ih =>
    by_cases h : n < 10
    · rw [natToDigits_small n h]
      simp only [List.foldl_cons, List.foldl_nil]
      unfold digitChar
      interval_cases n <;> decide
    · rw [natToDigits_step n h, List.foldl_append]
      rw [ih (n / 10) (Nat.div_lt_self (by omega) (by omega))]
      simp only [List.foldl_cons, List.foldl_nil]
      have h10 : n % 10 < 10 := Nat.mod_lt _ (by omega)
      have hdc : (digitChar (n % 10)).toNat - 48 = n % 10 := by
        unfold digitChar
        interval_cases hh : (n % 10) <;> decide
      rw [hdc]
      omega

theorem digit_char_facts (c : Char) (h : '0' ≤ c ∧ c ≤ '9') :
    c ≠ '.' ∧ c ≠ '_' ∧ c ≠ '-' ∧ c ≠ '+' ∧ isPyWs c = false ∧
      digitVal c = some (c.toNat - 48) := by
  obtain ⟨h1, h2⟩ := h
  refine ⟨?_, ?_, ?_, ?_, ?_, ?_⟩
  · intro hh; subst hh; exact absurd h1 (by decide)
  · intro hh; subst hh; exact absurd h2 (by decide)
  · intro hh; subst hh; exact absurd h1 (by decide)
  · intro hh; subst hh; exact absurd h1 (by decide)
  · unfold isPyWs
    simp only [decide_eq_false_iff_not]
    intro hc
    rcases hc with hh | hh | hh | hh | hh | hh <;>
      (subst hh; exact absurd h1 (by decide))
  · unfold digitVal
    rw [if_pos ⟨h1, h2⟩]

theorem dropWhile_no_ws (l : List Char)
    (h : ∀ c ∈ l, isPyWs c = false) : l.dropWhile isPyWs = l := by
  cases l with
  | nil => rfl
  | cons c rest =>
    rw [List.dropWhile_cons, if_neg]
    rw [h c (List.mem_cons_self c rest)]
    simp

theorem pyStrip_digits (l : List Char)
    (h : ∀ c ∈ l, isPyWs c = false) : pyStrip l = l := by
  unfold pyStrip
  rw [dropWhile_no_ws l h,
    dropWhile_no_ws l.reverse (fun c hc => h c (List.mem_reverse.mp hc)),
    List.reverse_reverse]

theorem parseDigitsCore_digits (l : List Char)
    (h : ∀ c ∈ l, '0' ≤ c ∧ c ≤ '9') (acc : Nat) :
    parseDigitsCore l acc =
      some (l.foldl (fun a c => a * 10 + (c.toNat - 48)) acc) := by
  induction l generalizing acc with
  | nil => rfl
  | cons c rest ih =>
    have hc := h c (List.mem_cons_self c rest)
    obtain ⟨_, hnu, _, _, _, hdv⟩ := digit_char_facts c hc
    rw [parseDigitsCore.eq_def]
    dsimp only
    rw [if_neg hnu, hdv]
    exact ih (fun c' h' => h c' (List.mem_cons_of_mem _ h')) _

theorem foldl_zeros (k : Nat) :
    (List.replicate k '0').foldl (fun a c => a * 10 + (c.toNat - 48)) 0 = 0 := by
  induction k with
  | zero => rfl
  | succ m ihm =>
    rw [List.replicate_succ, List.foldl_cons,
      show (0 * 10 + ('0'.toNat - 48)) = 0 by decide]
    exact ihm

theorem pyInt_digits_run (k n : Nat) :
    pyInt (List.replicate k '0' ++ natToDigits n) = .ok (n : Int) := by
  have hdig : ∀ c ∈ List.replicate k '0' ++ natToDigits n,
      '0' ≤ c ∧ c ≤ '9' := by
    intro c hc
    rcases List.mem_append.mp hc with hm | hm
    · rw [List.eq_of_mem_replicate hm]
      exact ⟨le_refl _, by decide⟩
    · exact natToDigits_digits n c hm
  have hws : ∀ c ∈ List.replicate k '0' ++ natToDigits n, isPyWs c = false :=
    fun c hc => (digit_char_facts c (hdig c hc)).2.2.2.2.1
  unfold pyInt
  rw [pyStrip_digits _ hws]
  have hfold : (List.replicate k '0' ++ natToDigits n).foldl
      (fun a c => a * 10 + (c.toNat - 48)) 0 = n := by
    rw [List.foldl_append, foldl_zeros, natToDigits_foldl]
  cases hl : List.replicate k '0' ++ natToDigits n with
  | nil => exact absurd (List.append_eq_nil.mp hl).2 (natToDigits_ne_nil n)
  | cons c rest =>
    rw [hl] at hfold
    have hc : '0' ≤ c ∧ c ≤ '9' := hdig c (hl ▸ List.mem_cons_self c rest)
    have hdigr : ∀ c' ∈ rest, '0' ≤ c' ∧ c' ≤ '9' := fun c' h' =>
      hdig c' (hl ▸ List.mem_cons_of_mem _ h')
    obtain ⟨_, _, hnm, hnp, _, hdv⟩ := digit_char_facts c hc
    split
    next r heq =>
      exact absurd (List.cons.injEq _ _ _ _ ▸ heq).1 hnm
    next r heq =>
      exact absurd (List.cons.injEq _ _ _ _ ▸ heq).1 hnp
    next r hne1 hne2 =>
      simp only [parseDigitsU, hdv]
      rw [parseDigitsCore_digits rest hdigr]
      rw [List.foldl_cons] at hfold
      simp only [Nat.zero_mul, Nat.zero_add] at hfold
      rw [hfold]

theorem gbPrefix_no_cross :
    ∀ k k' : Fin 12, k ≠ k' →
      ¬ ((gbTypes.getD k'.val ⟨[], 0, false, false⟩).prefixStr <+:
        (gbTypes.getD k.val ⟨[], 0, false, false⟩).prefixStr) := by
  decide

theorem gbTypes_len : gbTypes.length = 12 := by decide

theorem findGbType_first :
    ∀ (l : List GbType) (s : List Char) (i k : Nat), k < l.length →
      ((l.getD k ⟨[], 0, false, false⟩).prefixStr <+: s) →
      (∀ j, j < k → ¬ ((l.getD j ⟨[], 0, false, false⟩).prefixStr <+: s)) →
      findGbType l s i = some (i + k, l.getD k ⟨[], 0, false, false⟩) := by
  intro l
  induction l with
  | nil =>
    intro s i k hk
    exact absurd hk (by simp)
  | cons t rest ih =>
    intro s i k hk hmatch hbefore
    cases k with
    | zero =>
      rw [List.getD_cons_zero] at hmatch
      rw [findGbType, if_pos (List.isPrefixOf_iff_prefix.mpr hmatch),
        Nat.add_zero, List.getD_cons_zero]
    | succ k' =>
      have hne : ¬ t.prefixStr.isPrefixOf s := by
        intro hp
        exact hbefore 0 (by omega)
          (by rw [List.getD_cons_zero]; exact List.isPrefixOf_iff_prefix.mp hp)
      rw [findGbType, if_neg hne, List.getD_cons_succ]
      rw [List.getD_cons_succ] at hmatch
      rw [show i + (k' + 1) = (i + 1) + k' by omega]
      exact ih s (i + 1) k' (by simpa using hk) hmatch
        (fun j hj => by
          have := hbefore (j + 1) (by omega)
          rwa [List.getD_cons_succ] at this)

theorem canonical_prefix_match (k : Fin 12) (tailStr : List Char) :
    findGbType gbTypes
        ((gbTypes.getD k.val ⟨[], 0, false, false⟩).prefixStr ++ tailStr) 0 =
      some (k.val, gbTypes.getD k.val ⟨[], 0, false, false⟩) := by
  have hm : (gbTypes.getD k.val ⟨[], 0, false, false⟩).prefixStr <+:
      (gbTypes.getD k.val ⟨[], 0, false, false⟩).prefixStr ++ tailStr :=
    List.prefix_append _ _
  have h0 := findGbType_first gbTypes
    ((gbTypes.getD k.val ⟨[], 0, false, false⟩).prefixStr ++ tailStr) 0 k.val
    (by rw [gbTypes_len]; exact k.isLt) hm
    (fun j hj hp => by
      have hj12 : j < 12 := lt_trans hj k.isLt
      rcases List.prefix_or_prefix_of_prefix hp hm with hc | hc
      · exact gbPrefix_no_cross k ⟨j, hj12⟩
          (fun he => by
            have : k.val = j := congrArg Fin.val he
            omega) hc
      · exact gbPrefix_no_cross ⟨j, hj12⟩ k
          (fun he => by
            have : j = k.val := congrArg Fin.val he
            omega) hc)
  rwa [Nat.zero_add] at h0

theorem findIdx_no_hit (p : Char → Bool) (l1 l2 : List Char)
    (h : ∀ c ∈ l1, p c = false) :
    List.findIdx p (l1 ++ l2) = l1.length + List.findIdx p l2 := by
  induction l1 with
  | nil => simp
  | cons c rest ih =>
    rw [List.cons_append, List.findIdx_cons, h c (List.mem_cons_self c rest)]
    rw [ih (fun c' h' => h c' (List.mem_cons_of_mem _ h'))]
    simp only [List.length_cons, Bool.cond_false]
    omega

theorem gbPrefix_no_dot :
    ∀ k : Fin 12, '.' ∉ (gbTypes.getD k.val ⟨[], 0, false, false⟩).prefixStr := by
  decide

theorem pyListGet_fin :
    ∀ k : Fin 12, pyListGet gbTypes ((k.val : Nat) : Int) =
      .ok (gbTypes.getD k.val ⟨[], 0, false, false⟩) := by
  decide

theorem zfill_digits (id w : Nat) :
    ∀ c ∈ zfill (natToDigits id) w, '0' ≤ c ∧ c ≤ '9' := by
  intro c hc
  unfold zfill at hc
  rcases List.mem_append.mp hc with hm | hm
  · rw [List.eq_of_mem_replicate hm]
    exact ⟨le_refl _, by decide⟩
  · exact natToDigits_digits id c hm

theorem pyInt_zfill (id w : Nat) :
    pyInt (zfill (natToDigits id) w) = .ok (id : Int) := by
  unfold zfill
  exact pyInt_digits_run _ id

theorem pyInt_natToDigits (v : Nat) :
    pyInt (natToDigits v) = .ok (v : Int) := by
  have h := pyInt_digits_run 0 v
  rwa [List.replicate_zero, List.nil_append] at h

theorem gbEncode_canonical (k : Fin 12) (id v : Nat) (hid : id < 2 ^ 37)
    (hv : v < 2 ^ 18) :
    gbEncode (canonicalGb (gbTypes.getD k.val ⟨[], 0, false, false⟩) id v) =
      .ok (gbEncodeFields (id : Int) (v : Int) ((k.val : Nat) : Int)) := by
  by_cases hv0 : v > 0
  · have hcanon : canonicalGb (gbTypes.getD k.val ⟨[], 0, false, false⟩) id v =
        (gbTypes.getD k.val ⟨[], 0, false, false⟩).prefixStr ++
          (zfill (natToDigits id)
              (canonicalPad (gbTypes.getD k.val ⟨[], 0, false, false⟩) id) ++
            ('.' :: natToDigits v)) := by
      unfold canonicalGb
      rw [if_pos hv0, List.append_assoc]
    rw [hcanon]
    unfold gbEncode
    rw [canonical_prefix_match k]
    dsimp only
    rw [if_pos (show '.' ∈ _ from List.mem_append.mpr (Or.inr
      (List.mem_append.mpr (Or.inr (List.mem_cons_self _ _)))))]
    rw [show ((gbTypes.getD k.val ⟨[], 0, false, false⟩).prefixStr ++
        (zfill (natToDigits id)
            (canonicalPad (gbTypes.getD k.val ⟨[], 0, false, false⟩) id) ++
          ('.' :: natToDigits v))).findIdx (fun c => c = '.') =
        (gbTypes.getD k.val ⟨[], 0, false, false⟩).prefixStr.length +
          (zfill (natToDigits id)
            (canonicalPad (gbTypes.getD k.val ⟨[], 0, false, false⟩) id)).length
      by
        rw [← List.append_assoc, findIdx_no_hit _ _ _ ?hno, List.length_append,
          List.findIdx_cons]
        · simp
        case hno =>
          intro c hc
          simp only [decide_eq_false_iff_not]
          rcases List.mem_append.mp hc with hm | hm
          · intro he
            subst he
            exact gbPrefix_no_dot k hm
          · exact (digit_char_facts c (zfill_digits id _ c hm)).1]
    rw [show (gbTypes.getD k.val ⟨[], 0, false, false⟩).prefixStr.length +
        (zfill (natToDigits id)
          (canonicalPad (gbTypes.getD k.val ⟨[], 0, false, false⟩) id)).length -
        (gbTypes.getD k.val ⟨[], 0, false, false⟩).prefixStr.length =
        (zfill (natToDigits id)
          (canonicalPad (gbTypes.getD k.val ⟨[], 0, false, false⟩) id)).length
      by omega]
    rw [List.drop_left, List.take_left, pyInt_zfill]
    rw [show (gbTypes.getD k.val ⟨[], 0, false, false⟩).prefixStr.length +
        (zfill (natToDigits id)
          (canonicalPad (gbTypes.getD k.val ⟨[], 0, false, false⟩) id)).length +
          1 =
        ((gbTypes.getD k.val ⟨[], 0, false, false⟩).prefixStr ++
          zfill (natToDigits id)
            (canonicalPad (gbTypes.getD k.val ⟨[], 0, false, false⟩) id)).length
          + 1 by rw [List.length_append]]
    rw [← List.append_assoc, List.drop_append 1]
    rw [show ('.' :: natToDigits v).drop 1 = natToDigits v from rfl]
    rw [pyInt_natToDigits]
  · have hveq : v = 0 := by omega
    subst hveq
    have hcanon : canonicalGb (gbTypes.getD k.val ⟨[], 0, false, false⟩) id 0 =
        (gbTypes.getD k.val ⟨[], 0, false, false⟩).prefixStr ++
          zfill (natToDigits id)
            (canonicalPad (gbTypes.getD k.val ⟨[], 0, false, false⟩) id) := by
      unfold canonicalGb
      rw [if_neg (by omega), List.append_nil]
    rw [hcanon]
    unfold gbEncode
    rw [canonical_prefix_match k]
    dsimp only
    rw [if_neg (show ¬ '.' ∈ _ from fun hc => by
      rcases List.mem_append.mp hc with hm | hm
      · exact gbPrefix_no_dot k hm
      · exact (digit_char_facts '.' (zfill_digits id _ '.' hm)).1 rfl)]
    rw [List.drop_left, pyInt_zfill]
    norm_num

theorem gbToString_canonical (k : Fin 12) (id v : Nat) (hid : id < 2 ^ 37)
    (hv : v < 2 ^ 18) :
    gbToString (gbEncodeFields (id : Int) (v : Int) ((k.val : Nat) : Int)) =
      .ok (canonicalGb (gbTypes.getD k.val ⟨[], 0, false, false⟩) id v) := by
  have hk8 : k.val < 2 ^ 8 := lt_trans k.isLt (by norm_num)
  unfold gbToString gbIdentifierStr type_id_to_gbType gbIdentifierField gbVersion
  rw [gbEncodeFields_nat k.val id v hk8 hid hv]
  rw [gb_read_type k.val id v hk8 hid hv, pyListGet_fin k]
  dsimp only
  rw [gb_read_id k.val id v hk8 hid hv, gb_read_version k.val id v hk8 hid hv]
  have hident : ¬ ((id : Int) < 0) := Int.not_lt.mpr (Int.natCast_nonneg id)
  have hpad : (if (gbTypes.getD k.val ⟨[], 0, false, false⟩).refseq = true then
      if False then 0 else if (id : Int) ≥ 1000000 then 9 else 6
      else (gbTypes.getD k.val ⟨[], 0, false, false⟩).padding_size) =
      canonicalPad (gbTypes.getD k.val ⟨[], 0, false, false⟩) id := by
    unfold canonicalPad
    by_cases hr : (gbTypes.getD k.val ⟨[], 0, false, false⟩).refseq = true
    · rw [if_pos hr, if_pos hr, if_false]
      by_cases h6 : id ≥ 1000000
      · rw [if_pos (by exact_mod_cast h6), if_pos h6]
      · rw [if_neg (by exact_mod_cast h6), if_neg h6]
    · rw [if_neg hr, if_neg hr]
  rw [hpad]
  have hint : intToDigits (id : Int) = natToDigits id := by
    unfold intToDigits
    rw [if_neg hident, Int.toNat_ofNat]
  rw [hint]
  by_cases hv0 : v > 0
  · rw [if_pos (show ((v : Nat) : Int) > 0 by exact_mod_cast hv0)]
    have hintv : intToDigits (v : Int) = natToDigits v := by
      unfold intToDigits
      rw [if_neg (Int.not_lt.mpr (Int.natCast_nonneg v)), Int.toNat_ofNat]
    rw [hintv]
    unfold canonicalGb
    rw [if_pos hv0, List.append_assoc]
  · rw [if_neg (show ¬ ((v : Nat) : Int) > 0 by exact_mod_cast hv0)]
    unfold canonicalGb
    rw [if_neg hv0, List.append_nil]

/-- C1 counterexample: `"ENST1.6"` is accepted by `encode` (its numeric
part parses) but decodes to the zero-padded `"ENST00000000001.6"`, so
`decode(encode(s)) == s` fails for this accepted string. -/
theorem C1_counterexample :
    (gbEncode "ENST1.6".data).bind gbToString =
        .ok "ENST00000000001.6".data ∧
      "ENST00000000001.6".data ≠ "ENST1.6".data :=
  ⟨by decide, by decide⟩

/-- C1 (amended): the transcript codec round-trips exactly the canonical
strings: for every type, every id below `2^37` and version below `2^18`,
encoding the canonical string (zero-padded to the width decode uses,
version suffix present iff positive) yields the packed field triple, and
decoding that integer returns the same canonical string.  The concrete
values hold: `encode("ENST00000404276.6") = 105978527750` (and back),
`encode("ENST00000123456.1") = 32363249665`,
`encode("ENST00000123456") = 32363249664` with the version suffix omitted
on decode. -/
theorem C1_canonical_round_trip :
    (∀ (k : Fin 12) (id v : Nat), id < 2 ^ 37 → v < 2 ^ 18 →
      gbEncode (canonicalGb (gbTypes.getD k.val ⟨[], 0, false, false⟩) id v) =
          .ok (gbEncodeFields (id : Int) (v : Int) ((k.val : Nat) : Int)) ∧
        gbToString (gbEncodeFields (id : Int) (v : Int) ((k.val : Nat) : Int)) =
          .ok (canonicalGb (gbTypes.getD k.val ⟨[], 0, false, false⟩) id v)) ∧
    gbEncode "ENST00000404276.6".data = .ok 105978527750 ∧
    gbToString 105978527750 = .ok "ENST00000404276.6".data ∧
    gbEncode "ENST00000123456.1".data = .ok 32363249665 ∧
    gbEncode "ENST00000123456".data = .ok 32363249664 ∧
    gbToString 32363249664 = .ok "ENST00000123456".data :=
  ⟨fun k id v hid hv =>
    ⟨gbEncode_canonical k id v hid hv, gbToString_canonical k id v hid hv⟩,
    by decide, by decide, by decide, by decide, by decide⟩

/-- C1 witness: the round trip instantiated at `ENST`, id 404276,
version 6 — the canonical string `"ENST00000404276.6"`. -/
theorem C1_witness :
    (404276 : Nat) < 2 ^ 37 ∧ (6 : Nat) < 2 ^ 18 ∧
      gbEncode (canonicalGb (gbTypes.getD (0 : Fin 12).val ⟨[], 0, false, false⟩)
          404276 6) =
        .ok (gbEncodeFields ((404276 : Nat) : Int) ((6 : Nat) : Int)
          (((0 : Fin 12).val : Nat) : Int)) ∧
      gbToString (gbEncodeFields ((404276 : Nat) : Int) ((6 : Nat) : Int)
          (((0 : Fin 12).val : Nat) : Int)) =
        .ok (canonicalGb (gbTypes.getD (0 : Fin 12).val ⟨[], 0, false, false⟩)
          404276 6) :=
  ⟨by norm_num, by norm_num,
    (C1_canonical_round_trip.1 0 404276 6 (by norm_num) (by norm_num)).1,
    (C1_canonical_round_trip.1 0 404276 6 (by norm_num) (by norm_num)).2⟩
